import Mathlib

/- Verification development for the Skylark BI agent (app.py): the board
   fetcher, the data normalizer and the analyst composer, embedded shallowly.

   Modelling conventions:
   - pandas cell values are the inductive type Cell below (raw string, NaN,
     number, timestamp, NaT); numbers are exact scaled decimals (IEEE float
     rounding is not modelled); stringifying a number follows float64
     printing: plain decimal notation for zero or magnitudes in
     [1e-4, 1e16), scientific notation (such as "1e+20") outside that
     range;
   - character-level operations (strip, title, lower) are modelled at ASCII
     precision;
   - the permissive pandas date parser is modelled as an ISO YYYY-MM-DD
     parser with pandas nanosecond-timestamp range checking;
   - network effects are oracles passed in as explicit arguments. -/

set_option linter.unusedVariables false

namespace Skylark

/-! ### ASCII character helpers -/

def isDigitCh (c : Char) : Bool := 48 ≤ c.toNat && c.toNat ≤ 57

def isSpaceCh (c : Char) : Bool :=
  c.toNat = 32 || c.toNat = 9 || c.toNat = 10 || c.toNat = 13 || c.toNat = 11 || c.toNat = 12

def isAlphaCh (c : Char) : Bool :=
  (65 ≤ c.toNat && c.toNat ≤ 90) || (97 ≤ c.toNat && c.toNat ≤ 122)

def toUpperCh (c : Char) : Char :=
  if 97 ≤ c.toNat ∧ c.toNat ≤ 122 then Char.ofNat (c.toNat - 32) else c

def toLowerCh (c : Char) : Char :=
  if 65 ≤ c.toNat ∧ c.toNat ≤ 90 then Char.ofNat (c.toNat + 32) else c

def digitChar (d : Nat) : Char := Char.ofNat (48 + d)

def digitVal (c : Char) : Nat := c.toNat - 48

theorem toNat_ofNat_lt (n : Nat) (h : n < 55296) : (Char.ofNat n).toNat = n := by
  unfold Char.ofNat
  split
  · rfl
  · exact absurd (Or.inl h) (by assumption)

theorem digitVal_digitChar {d : Nat} (h : d < 10) : digitVal (digitChar d) = d := by
  simp only [digitVal, digitChar, toNat_ofNat_lt (48 + d) (by omega)]
  omega

theorem isDigitCh_digitChar {d : Nat} (h : d < 10) : isDigitCh (digitChar d) = true := by
  simp only [isDigitCh, digitChar, toNat_ofNat_lt (48 + d) (by omega)]
  simp only [Bool.and_eq_true, decide_eq_true_eq]
  omega

theorem toNat_digitChar {d : Nat} (h : d < 10) : (digitChar d).toNat = 48 + d := by
  simp only [digitChar, toNat_ofNat_lt (48 + d) (by omega)]

theorem isDigitCh_iff (c : Char) : isDigitCh c = true ↔ 48 ≤ c.toNat ∧ c.toNat ≤ 57 := by
  simp [isDigitCh]

theorem isSpaceCh_iff (c : Char) : isSpaceCh c = true ↔
    c.toNat = 32 ∨ c.toNat = 9 ∨ c.toNat = 10 ∨ c.toNat = 13 ∨ c.toNat = 11 ∨ c.toNat = 12 := by
  simp [isSpaceCh, or_assoc]

theorem isAlphaCh_iff (c : Char) : isAlphaCh c = true ↔
    (65 ≤ c.toNat ∧ c.toNat ≤ 90) ∨ (97 ≤ c.toNat ∧ c.toNat ≤ 122) := by
  simp [isAlphaCh]

theorem toNat_toUpperCh (c : Char) :
    (toUpperCh c).toNat = if 97 ≤ c.toNat ∧ c.toNat ≤ 122 then c.toNat - 32 else c.toNat := by
  unfold toUpperCh
  split
  · next h => rw [toNat_ofNat_lt (c.toNat - 32) (by omega)]
  · rfl

theorem toNat_toLowerCh (c : Char) :
    (toLowerCh c).toNat = if 65 ≤ c.toNat ∧ c.toNat ≤ 90 then c.toNat + 32 else c.toNat := by
  unfold toLowerCh
  split
  · next h => rw [toNat_ofNat_lt (c.toNat + 32) (by omega)]
  · rfl

theorem charEq_of_toNat {a b : Char} (h : a.toNat = b.toNat) : a = b := by
  have := congrArg Char.ofNat h
  rwa [Char.ofNat_toNat, Char.ofNat_toNat] at this

theorem isAlphaCh_toUpperCh (c : Char) : isAlphaCh (toUpperCh c) = isAlphaCh c := by
  rw [Bool.eq_iff_iff, isAlphaCh_iff, isAlphaCh_iff, toNat_toUpperCh]
  by_cases h : 97 ≤ c.toNat ∧ c.toNat ≤ 122
  · rw [if_pos h]; omega
  · rw [if_neg h]

theorem isAlphaCh_toLowerCh (c : Char) : isAlphaCh (toLowerCh c) = isAlphaCh c := by
  rw [Bool.eq_iff_iff, isAlphaCh_iff, isAlphaCh_iff, toNat_toLowerCh]
  by_cases h : 65 ≤ c.toNat ∧ c.toNat ≤ 90
  · rw [if_pos h]; omega
  · rw [if_neg h]

theorem isSpaceCh_toUpperCh (c : Char) : isSpaceCh (toUpperCh c) = isSpaceCh c := by
  rw [Bool.eq_iff_iff, isSpaceCh_iff, isSpaceCh_iff, toNat_toUpperCh]
  by_cases h : 97 ≤ c.toNat ∧ c.toNat ≤ 122
  · rw [if_pos h]; omega
  · rw [if_neg h]

theorem isSpaceCh_toLowerCh (c : Char) : isSpaceCh (toLowerCh c) = isSpaceCh c := by
  rw [Bool.eq_iff_iff, isSpaceCh_iff, isSpaceCh_iff, toNat_toLowerCh]
  by_cases h : 65 ≤ c.toNat ∧ c.toNat ≤ 90
  · rw [if_pos h]; omega
  · rw [if_neg h]

theorem toUpperCh_eq_self {c : Char} (h : ¬(97 ≤ c.toNat ∧ c.toNat ≤ 122)) :
    toUpperCh c = c := by
  unfold toUpperCh; rw [if_neg h]

theorem toLowerCh_eq_self {c : Char} (h : ¬(65 ≤ c.toNat ∧ c.toNat ≤ 90)) :
    toLowerCh c = c := by
  unfold toLowerCh; rw [if_neg h]

theorem toUpperCh_toUpperCh (c : Char) : toUpperCh (toUpperCh c) = toUpperCh c := by
  apply toUpperCh_eq_self
  rw [toNat_toUpperCh]
  by_cases h : 97 ≤ c.toNat ∧ c.toNat ≤ 122
  · rw [if_pos h]; omega
  · rw [if_neg h]; exact h

theorem toLowerCh_toLowerCh (c : Char) : toLowerCh (toLowerCh c) = toLowerCh c := by
  apply toLowerCh_eq_self
  rw [toNat_toLowerCh]
  by_cases h : 65 ≤ c.toNat ∧ c.toNat ≤ 90
  · rw [if_pos h]; omega
  · rw [if_neg h]; exact h

theorem toLowerCh_toUpperCh (c : Char) : toLowerCh (toUpperCh c) = toLowerCh c := by
  by_cases h : 97 ≤ c.toNat ∧ c.toNat ≤ 122
  · -- c is a lowercase letter: toUpperCh c is its uppercase twin
    have hup : (toUpperCh c).toNat = c.toNat - 32 := by rw [toNat_toUpperCh, if_pos h]
    have h2 : 65 ≤ (toUpperCh c).toNat ∧ (toUpperCh c).toNat ≤ 90 := by omega
    have h3 : ¬(65 ≤ c.toNat ∧ c.toNat ≤ 90) := by omega
    rw [toLowerCh_eq_self h3]
    apply charEq_of_toNat
    rw [toNat_toLowerCh, if_pos h2]
    omega
  · rw [toUpperCh_eq_self h]

theorem toUpperCh_toLowerCh (c : Char) : toUpperCh (toLowerCh c) = toUpperCh c := by
  by_cases h : 65 ≤ c.toNat ∧ c.toNat ≤ 90
  · have hlo : (toLowerCh c).toNat = c.toNat + 32 := by rw [toNat_toLowerCh, if_pos h]
    have h2 : 97 ≤ (toLowerCh c).toNat ∧ (toLowerCh c).toNat ≤ 122 := by omega
    have h3 : ¬(97 ≤ c.toNat ∧ c.toNat ≤ 122) := by omega
    rw [toUpperCh_eq_self h3]
    apply charEq_of_toNat
    rw [toNat_toUpperCh, if_pos h2]
    omega
  · rw [toLowerCh_eq_self h]

theorem toUpperCh_of_not_alpha {c : Char} (h : isAlphaCh c = false) : toUpperCh c = c := by
  apply toUpperCh_eq_self
  have := (isAlphaCh_iff c)
  rw [h] at this
  simp only [Bool.false_eq_true, false_iff, not_or] at this
  exact this.2

theorem toLowerCh_of_not_alpha {c : Char} (h : isAlphaCh c = false) : toLowerCh c = c := by
  apply toLowerCh_eq_self
  have := (isAlphaCh_iff c)
  rw [h] at this
  simp only [Bool.false_eq_true, false_iff, not_or] at this
  exact this.1

theorem digit_not_alpha {c : Char} (h : isDigitCh c = true) : isAlphaCh c = false := by
  rw [isDigitCh_iff] at h
  rw [Bool.eq_false_iff]
  intro hc
  rw [isAlphaCh_iff] at hc
  omega

theorem digit_not_space {c : Char} (h : isDigitCh c = true) : isSpaceCh c = false := by
  rw [isDigitCh_iff] at h
  rw [Bool.eq_false_iff]
  intro hc
  rw [isSpaceCh_iff] at hc
  omega

theorem digit_ne_dot {c : Char} (h : isDigitCh c = true) : c ≠ '.' := by
  rw [isDigitCh_iff] at h
  intro hc
  subst hc
  revert h
  decide

theorem digit_ne_minus {c : Char} (h : isDigitCh c = true) : c ≠ '-' := by
  rw [isDigitCh_iff] at h
  intro hc
  subst hc
  revert h
  decide

/-! ### Exact decimals: the model of pandas numeric values

A `Dec` with mantissa `m` and scale `e` denotes the rational `m / 10 ^ e`.
`pd.to_numeric(..., errors="coerce")` on a character-stripped string is
modelled by `parseDec`; rendering a numeric value back to text
(`astype(str)`) is modelled by `renderDec`. -/

structure Dec where
  m : Int
  e : Nat
deriving DecidableEq, Repr

def Dec.toRat (d : Dec) : ℚ := (d.m : ℚ) / (10 : ℚ) ^ d.e

def digitsVal (l : List Char) : Nat := l.foldl (fun a c => a * 10 + digitVal c) 0

/-- Fuel-based base-10 digit list (least significant first), kernel-reducible. -/
def natDigitsAux : Nat → Nat → List Nat
  | 0, _ => []
  | _ + 1, 0 => []
  | fuel + 1, n + 1 => ((n + 1) % 10) :: natDigitsAux fuel ((n + 1) / 10)

def natChars (n : Nat) : List Char :=
  if n = 0 then ['0'] else (natDigitsAux n n).reverse.map digitChar

def natStr (n : Nat) : String := String.mk (natChars n)

theorem natDigitsAux_eq (fuel : Nat) :
    ∀ n, n ≤ fuel → natDigitsAux fuel n = Nat.digits 10 n := by
  induction fuel with
  | zero =>
    intro n hn
    interval_cases n
    show ([] : List Nat) = Nat.digits 10 0
    rw [Nat.digits_zero]
  | succ fuel ih =>
    intro n hn
    cases n with
    | zero =>
      show ([] : List Nat) = Nat.digits 10 0
      rw [Nat.digits_zero]
    | succ m =>
      show ((m + 1) % 10) :: natDigitsAux fuel ((m + 1) / 10) = _
      rw [ih ((m + 1) / 10) (by
        have := Nat.div_lt_self (Nat.succ_pos m) (by norm_num : 1 < 10)
        omega)]
      rw [Nat.digits_def' (by norm_num : 1 < 10) (Nat.succ_pos m)]

theorem natChars_eq (n : Nat) :
    natChars n = if n = 0 then ['0'] else (Nat.digits 10 n).reverse.map digitChar := by
  unfold natChars
  by_cases h : n = 0
  · rw [if_pos h, if_pos h]
  · rw [if_neg h, if_neg h, natDigitsAux_eq n n (le_refl n)]

theorem digitsVal_fold (ld : List Nat) (hl : ∀ d ∈ ld, d < 10) (a : Nat) :
    List.foldl (fun acc c => acc * 10 + digitVal c) a (ld.reverse.map digitChar)
      = a * 10 ^ ld.length + Nat.ofDigits 10 ld := by
  induction ld generalizing a with
  | nil => simp [Nat.ofDigits]
  | cons d tl ih =>
    simp only [List.reverse_cons, List.map_append, List.map_cons, List.map_nil,
      List.foldl_append, List.foldl_cons, List.foldl_nil, List.length_cons]
    rw [ih (fun x hx => hl x (List.mem_cons_of_mem _ hx)) a]
    rw [digitVal_digitChar (hl d (List.mem_cons_self _ _))]
    rw [Nat.ofDigits_cons, pow_succ]
    ring

theorem digitsVal_natChars (n : Nat) : digitsVal (natChars n) = n := by
  rw [natChars_eq]
  split
  · next h => subst h; decide
  · unfold digitsVal
    rw [digitsVal_fold (Nat.digits 10 n) (fun d hd => Nat.digits_lt_base (by norm_num) hd) 0]
    rw [Nat.ofDigits_digits]
    simp

theorem natChars_digits (n : Nat) : ∀ c ∈ natChars n, isDigitCh c = true := by
  rw [natChars_eq]
  split
  · intro c hc
    simp only [List.mem_singleton] at hc
    subst hc
    decide
  · intro c hc
    simp only [List.mem_map, List.mem_reverse] at hc
    obtain ⟨d, hd, rfl⟩ := hc
    exact isDigitCh_digitChar (Nat.digits_lt_base (by norm_num) hd)

theorem natChars_ne_nil (n : Nat) : natChars n ≠ [] := by
  rw [natChars_eq]
  split
  · simp
  · next h =>
    simp only [ne_eq, List.map_eq_nil_iff, List.reverse_eq_nil_iff]
    exact Nat.digits_ne_nil_iff_ne_zero.mpr h

def padZeros (k : Nat) (l : List Char) : List Char :=
  List.replicate (k - l.length) '0' ++ l

theorem digitsVal_zeros (j : Nat) :
    List.foldl (fun a c => a * 10 + digitVal c) 0 (List.replicate j '0') = 0 := by
  induction j with
  | zero => rfl
  | succ k ih => simpa [List.replicate_succ] using ih

theorem digitsVal_padZeros (k : Nat) (l : List Char) :
    digitsVal (padZeros k l) = digitsVal l := by
  unfold digitsVal padZeros
  rw [List.foldl_append, digitsVal_zeros]

theorem padZeros_digits (k : Nat) (l : List Char) (h : ∀ c ∈ l, isDigitCh c = true) :
    ∀ c ∈ padZeros k l, isDigitCh c = true := by
  intro c hc
  unfold padZeros at hc
  rw [List.mem_append] at hc
  rcases hc with hc | hc
  · rw [List.eq_of_mem_replicate hc]
    decide
  · exact h c hc

theorem padZeros_length (k : Nat) (l : List Char) :
    (padZeros k l).length = max k l.length := by
  unfold padZeros
  rw [List.length_append, List.length_replicate]
  omega

def splitFirstDot : List Char → List Char × Option (List Char)
  | [] => ([], none)
  | c :: rest =>
    if c = '.' then ([], some rest)
    else
      let r := splitFirstDot rest
      (c :: r.1, r.2)

theorem splitFirstDot_no_dot (l : List Char) (h : ∀ c ∈ l, c ≠ '.') :
    splitFirstDot l = (l, none) := by
  induction l with
  | nil => rfl
  | cons c rest ih =>
    unfold splitFirstDot
    rw [if_neg (h c (List.mem_cons_self _ _))]
    rw [ih (fun x hx => h x (List.mem_cons_of_mem _ hx))]

theorem splitFirstDot_append (l1 l2 : List Char) (h : ∀ c ∈ l1, c ≠ '.') :
    splitFirstDot (l1 ++ '.' :: l2) = (l1, some l2) := by
  induction l1 with
  | nil => simp [splitFirstDot]
  | cons c rest ih =>
    rw [List.cons_append]
    unfold splitFirstDot
    rw [if_neg (h c (List.mem_cons_self _ _))]
    rw [ih (fun x hx => h x (List.mem_cons_of_mem _ hx))]

def allDigits (l : List Char) : Bool := l.all isDigitCh

/-- Model of float coercion on an unsigned numeral: digits, at most one dot,
at least one digit overall (accepts "1.", ".5"; rejects "", ".", "1.2.3"). -/
def parseDecCore (l : List Char) : Option Dec :=
  match splitFirstDot l with
  | (ip, none) =>
    if ip ≠ [] ∧ allDigits ip = true then some ⟨(digitsVal ip : Int), 0⟩ else none
  | (ip, some fp) =>
    if (ip ≠ [] ∨ fp ≠ []) ∧ allDigits ip = true ∧ allDigits fp = true then
      some ⟨(digitsVal (ip ++ fp) : Int), fp.length⟩
    else none

/-- Model of `pd.to_numeric(s, errors="coerce")` on a single string that was
already stripped to the class [0-9.-]: an optional leading minus followed by
an unsigned numeral. -/
def parseDecChars : List Char → Option Dec
  | [] => none
  | c :: rest =>
    if c = '-' then (parseDecCore rest).map (fun d => ⟨-d.m, d.e⟩)
    else parseDecCore (c :: rest)

def parseDec (s : String) : Option Dec := parseDecChars s.data

theorem parseDecCore_none {l ip : List Char} (h : splitFirstDot l = (ip, none)) :
    parseDecCore l
      = if ip ≠ [] ∧ allDigits ip = true then some ⟨(digitsVal ip : Int), 0⟩ else none := by
  unfold parseDecCore
  rw [h]

theorem parseDecCore_some {l ip fp : List Char} (h : splitFirstDot l = (ip, some fp)) :
    parseDecCore l
      = if (ip ≠ [] ∨ fp ≠ []) ∧ allDigits ip = true ∧ allDigits fp = true then
          some ⟨(digitsVal (ip ++ fp) : Int), fp.length⟩
        else none := by
  unfold parseDecCore
  rw [h]

theorem parseDecChars_cons (c : Char) (rest : List Char) :
    parseDecChars (c :: rest)
      = if c = '-' then (parseDecCore rest).map (fun d => ⟨-d.m, d.e⟩)
        else parseDecCore (c :: rest) := rfl

def renderDecU (n : Nat) (e : Nat) : List Char :=
  if e = 0 then natChars n
  else
    let ds := padZeros (e + 1) (natChars n)
    ds.take (ds.length - e) ++ '.' :: ds.drop (ds.length - e)

/-- Plain (non-scientific) decimal notation: sign, digits, optional dot. -/
def renderDecPlain (d : Dec) : List Char :=
  if d.m < 0 then '-' :: renderDecU d.m.natAbs d.e else renderDecU d.m.toNat d.e

/-- float64 str() prints a value in plain decimal notation exactly when it
is zero or its magnitude lies in [1e-4, 1e16); outside that range it uses
scientific notation. For `d` denoting m / 10^e this is
10^e ≤ |m| * 10^4 and |m| < 10^(e+16). -/
def decPlain (d : Dec) : Bool :=
  decide (d.m = 0)
    || (decide (10 ^ d.e ≤ d.m.natAbs * 10 ^ 4) && decide (d.m.natAbs < 10 ^ (d.e + 16)))

/-- Scientific notation as float64 str() prints it: a mantissa with the
trailing zeros dropped, then "e", a forced sign and a two-digit-padded
exponent (e.g. "1e+20", "1.5e+16", "1e-05"). -/
def renderSciChars (d : Dec) : List Char :=
  let ds := natChars d.m.natAbs
  let stripped := (ds.reverse.dropWhile (fun c => c = '0')).reverse
  let mant :=
    match stripped with
    | [] => ['0']
    | dh :: [] => [dh]
    | dh :: rest => dh :: '.' :: rest
  let kexp : Int := (ds.length : Int) - 1 - (d.e : Int)
  (if d.m < 0 then ['-'] else [])
    ++ mant ++ 'e' :: (if kexp < 0 then '-' else '+') :: padZeros 2 (natChars kexp.natAbs)

/-- Model of `astype(str)` on a float64 numeric value: plain decimal
notation in the plain range, scientific notation outside it. -/
def renderDecChars (d : Dec) : List Char :=
  if decPlain d then renderDecPlain d else renderSciChars d

def renderDec (d : Dec) : String := String.mk (renderDecChars d)

theorem parseDecCore_renderDecU (n e : Nat) :
    parseDecCore (renderDecU n e) = some ⟨(n : Int), e⟩ := by
  unfold renderDecU
  by_cases he : e = 0
  · subst he
    rw [if_pos rfl]
    rw [parseDecCore_none
      (splitFirstDot_no_dot (natChars n) (fun c hc => digit_ne_dot (natChars_digits n c hc)))]
    rw [if_pos ⟨natChars_ne_nil n, List.all_eq_true.mpr (natChars_digits n)⟩]
    rw [digitsVal_natChars]
  · rw [if_neg he]
    simp only
    set ds := padZeros (e + 1) (natChars n) with hds
    have hdig : ∀ c ∈ ds, isDigitCh c = true := padZeros_digits _ _ (natChars_digits n)
    have hlen : ds.length = max (e + 1) (natChars n).length := padZeros_length _ _
    have htklen : (ds.take (ds.length - e)).length = ds.length - e := by
      rw [List.length_take]
      omega
    have htkdig : ∀ c ∈ ds.take (ds.length - e), isDigitCh c = true :=
      fun c hc => hdig c (List.mem_of_mem_take hc)
    have hdpdig : ∀ c ∈ ds.drop (ds.length - e), isDigitCh c = true :=
      fun c hc => hdig c (List.mem_of_mem_drop hc)
    rw [parseDecCore_some
      (splitFirstDot_append _ _ (fun c hc => digit_ne_dot (htkdig c hc)))]
    rw [if_pos ⟨Or.inl (by
        intro hnil
        have := htklen
        rw [hnil] at this
        simp only [List.length_nil] at this
        omega),
      List.all_eq_true.mpr htkdig, List.all_eq_true.mpr hdpdig⟩]
    rw [List.take_append_drop]
    have hval : digitsVal ds = n := by
      rw [hds, digitsVal_padZeros, digitsVal_natChars]
    have hlen2 : (ds.drop (ds.length - e)).length = e := by
      rw [List.length_drop]
      omega
    rw [hval, hlen2]

theorem renderDecU_head_digit (n e : Nat) :
    ∃ c rest, renderDecU n e = c :: rest ∧ isDigitCh c = true := by
  unfold renderDecU
  by_cases he : e = 0
  · subst he
    rw [if_pos rfl]
    obtain ⟨c, rest, hc⟩ := List.exists_cons_of_ne_nil (natChars_ne_nil n)
    exact ⟨c, rest, hc, natChars_digits n c (hc ▸ List.mem_cons_self _ _)⟩
  · rw [if_neg he]
    simp only
    set ds := padZeros (e + 1) (natChars n) with hds
    have hdig : ∀ c ∈ ds, isDigitCh c = true := padZeros_digits _ _ (natChars_digits n)
    have hlen : ds.length = max (e + 1) (natChars n).length := padZeros_length _ _
    have hne : ds.take (ds.length - e) ≠ [] := by
      intro hnil
      have := congrArg List.length hnil
      rw [List.length_take] at this
      simp only [List.length_nil] at this
      omega
    obtain ⟨c, rest, hc⟩ := List.exists_cons_of_ne_nil hne
    refine ⟨c, rest ++ '.' :: ds.drop (ds.length - e), ?_, ?_⟩
    · rw [hc, List.cons_append]
    · exact hdig c (List.mem_of_mem_take (hc ▸ List.mem_cons_self _ _))

theorem parseDecChars_renderDecPlain (d : Dec) :
    parseDecChars (renderDecPlain d) = some d := by
  unfold renderDecPlain
  by_cases hm : d.m < 0
  · rw [if_pos hm]
    rw [parseDecChars_cons, if_pos rfl, parseDecCore_renderDecU]
    show some (Dec.mk (-(d.m.natAbs : Int)) d.e) = some d
    have hmm : -((d.m.natAbs : Int)) = d.m := by omega
    rw [hmm]
  · rw [if_neg hm]
    obtain ⟨c, rest, hcr, hdigc⟩ := renderDecU_head_digit d.m.toNat d.e
    rw [hcr]
    rw [parseDecChars_cons, if_neg (digit_ne_minus hdigc), ← hcr, parseDecCore_renderDecU]
    have hmm : ((d.m.toNat : Int)) = d.m := by omega
    rw [hmm]

theorem parseDecChars_renderDecChars {d : Dec} (h : decPlain d = true) :
    parseDecChars (renderDecChars d) = some d := by
  unfold renderDecChars
  rw [if_pos h]
  exact parseDecChars_renderDecPlain d

theorem parseDec_renderDec {d : Dec} (h : decPlain d = true) :
    parseDec (renderDec d) = some d :=
  parseDecChars_renderDecChars h

/-! ### Python string operations: strip, title, lower (ASCII model) -/

def pyStripChars (l : List Char) : List Char :=
  ((l.dropWhile isSpaceCh).reverse.dropWhile isSpaceCh).reverse

def pyStrip (s : String) : String := String.mk (pyStripChars s.data)

/-- Python str.title: uppercase an alphabetic character that follows a
non-alphabetic one, lowercase the rest; the Bool is "previous character
was alphabetic". -/
def titleChars : Bool → List Char → List Char
  | _, [] => []
  | prev, c :: rest =>
    (if isAlphaCh c then (if prev then toLowerCh c else toUpperCh c) else c)
      :: titleChars (isAlphaCh c) rest

def pyTitle (s : String) : String := String.mk (titleChars false s.data)

def lowerChars (l : List Char) : List Char := l.map toLowerCh

def pyLower (s : String) : String := String.mk (lowerChars s.data)

theorem titleChars_cons (b : Bool) (c : Char) (rest : List Char) :
    titleChars b (c :: rest)
      = (if isAlphaCh c then (if b then toLowerCh c else toUpperCh c) else c)
          :: titleChars (isAlphaCh c) rest := rfl

theorem titleChars_space_profile (b : Bool) (l : List Char) :
    (titleChars b l).map isSpaceCh = l.map isSpaceCh := by
  induction l generalizing b with
  | nil => rfl
  | cons c rest ih =>
    unfold titleChars
    simp only [List.map_cons]
    rw [ih]
    congr 1
    by_cases ha : isAlphaCh c = true
    · rw [if_pos ha]
      by_cases hb : b = true
      · rw [if_pos hb, isSpaceCh_toLowerCh]
      · rw [if_neg hb, isSpaceCh_toUpperCh]
    · rw [if_neg ha]

theorem titleChars_alpha_head (b : Bool) (c : Char) :
    isAlphaCh ((if isAlphaCh c then (if b then toLowerCh c else toUpperCh c) else c))
      = isAlphaCh c := by
  by_cases ha : isAlphaCh c = true
  · rw [if_pos ha]
    by_cases hb : b = true
    · rw [if_pos hb, isAlphaCh_toLowerCh]
    · rw [if_neg hb, isAlphaCh_toUpperCh]
  · rw [if_neg ha]

theorem titleChars_titleChars (b : Bool) (l : List Char) :
    titleChars b (titleChars b l) = titleChars b l := by
  induction l generalizing b with
  | nil => rfl
  | cons c rest ih =>
    rw [titleChars_cons b c rest, titleChars_cons, titleChars_alpha_head b c]
    congr 1
    · by_cases ha : isAlphaCh c = true
      · rw [if_pos ha, if_pos ha]
        by_cases hb : b = true
        · rw [if_pos hb, if_pos hb, toLowerCh_toLowerCh]
        · rw [if_neg hb, if_neg hb, toUpperCh_toUpperCh]
      · rw [if_neg ha, if_neg ha]
    · exact ih (isAlphaCh c)

theorem titleChars_of_no_alpha {l : List Char} (h : ∀ c ∈ l, isAlphaCh c = false) (b : Bool) :
    titleChars b l = l := by
  induction l generalizing b with
  | nil => rfl
  | cons c rest ih =>
    unfold titleChars
    rw [if_neg (by rw [h c (List.mem_cons_self _ _)]; exact Bool.false_ne_true)]
    rw [ih (fun x hx => h x (List.mem_cons_of_mem _ hx))]

theorem dropWhile_eq_self_of_head {l : List Char}
    (h : ∀ c, l.head? = some c → isSpaceCh c = false) :
    l.dropWhile isSpaceCh = l := by
  cases l with
  | nil => rfl
  | cons c rest =>
    rw [List.dropWhile_cons, if_neg]
    rw [h c rfl]
    exact Bool.false_ne_true

theorem head_dropWhile_not_space (l : List Char) :
    ∀ c, (l.dropWhile isSpaceCh).head? = some c → isSpaceCh c = false := by
  induction l with
  | nil => intro c hc; simp [List.dropWhile] at hc
  | cons a rest ih =>
    intro c hc
    rw [List.dropWhile_cons] at hc
    by_cases ha : isSpaceCh a = true
    · rw [if_pos ha] at hc
      exact ih c hc
    · rw [if_neg ha] at hc
      simp only [List.head?_cons, Option.some_inj] at hc
      subst hc
      exact Bool.eq_false_iff.mpr ha

theorem pyStripChars_head_not_space (l : List Char) :
    ∀ c, (pyStripChars l).head? = some c → isSpaceCh c = false := by
  intro c hc
  unfold pyStripChars at hc
  rw [List.head?_reverse] at hc
  -- hc : getLast? of (dropWhile sp A.reverse) = some c  where A := dropWhile sp l
  set A := l.dropWhile isSpaceCh with hA
  set B := A.reverse.dropWhile isSpaceCh with hB
  have hBne : B ≠ [] := by
    intro hnil
    rw [hnil] at hc
    simp at hc
  obtain ⟨t, ht⟩ := List.dropWhile_suffix (l := A.reverse) isSpaceCh
  rw [← hB] at ht
  have : A.reverse.getLast? = some c := by
    rw [← ht, List.getLast?_append]
    rw [hc]
    rfl
  rw [List.getLast?_reverse] at this
  exact head_dropWhile_not_space l c this

theorem pyStripChars_getLast_not_space (l : List Char) :
    ∀ c, (pyStripChars l).getLast? = some c → isSpaceCh c = false := by
  intro c hc
  unfold pyStripChars at hc
  rw [List.getLast?_reverse] at hc
  exact head_dropWhile_not_space _ c hc

theorem pyStripChars_eq_self {l : List Char}
    (h1 : ∀ c, l.head? = some c → isSpaceCh c = false)
    (h2 : ∀ c, l.getLast? = some c → isSpaceCh c = false) :
    pyStripChars l = l := by
  unfold pyStripChars
  rw [dropWhile_eq_self_of_head h1]
  rw [dropWhile_eq_self_of_head (fun c hc => h2 c (by rwa [List.head?_reverse] at hc))]
  exact List.reverse_reverse l

theorem pyStripChars_of_no_space {l : List Char} (h : ∀ c ∈ l, isSpaceCh c = false) :
    pyStripChars l = l :=
  pyStripChars_eq_self
    (fun c hc => h c (by cases l with
      | nil => simp at hc
      | cons a r =>
        simp only [List.head?_cons, Option.some_inj] at hc
        subst hc
        exact List.mem_cons_self _ _))
    (fun c hc => h c (List.mem_of_getLast?_eq_some hc))

theorem pyStrip_titleChars_pyStrip (b : Bool) (l : List Char) :
    pyStripChars (titleChars b (pyStripChars l)) = titleChars b (pyStripChars l) := by
  set y := pyStripChars l with hy
  have hprofile : (titleChars b y).map isSpaceCh = y.map isSpaceCh :=
    titleChars_space_profile b y
  apply pyStripChars_eq_self
  · intro c hc
    have h1 := congrArg List.head? hprofile
    rw [List.head?_map, List.head?_map, hc] at h1
    cases hyh : y.head? with
    | none => rw [hyh] at h1; simp at h1
    | some c0 =>
      rw [hyh] at h1
      simp only [Option.map_some', Option.some_inj] at h1
      rw [h1]
      exact pyStripChars_head_not_space l c0 hyh
  · intro c hc
    have h1 := congrArg List.getLast? hprofile
    rw [List.getLast?_map, List.getLast?_map, hc] at h1
    cases hyh : y.getLast? with
    | none => rw [hyh] at h1; simp at h1
    | some c0 =>
      rw [hyh] at h1
      simp only [Option.map_some', Option.some_inj] at h1
      rw [h1]
      exact pyStripChars_getLast_not_space l c0 hyh

/-! ### Calendar dates: the model of pd.to_datetime on strings

pandas permissive parsing is modelled as ISO-8601 YYYY-MM-DD (optionally
followed by a midnight time), range-checked against the pandas nanosecond
Timestamp bounds (valid midnight dates: 1677-09-22 .. 2262-04-11). -/

structure Ymd where
  y : Nat
  mo : Nat
  d : Nat
deriving DecidableEq, Repr

def isLeap (y : Nat) : Bool := (y % 4 = 0 && y % 100 ≠ 0) || y % 400 = 0

def daysInMonth (y mo : Nat) : Nat :=
  if mo = 2 then (if isLeap y then 29 else 28)
  else if mo = 4 ∨ mo = 6 ∨ mo = 9 ∨ mo = 11 then 30 else 31

def ymdInBounds (t : Ymd) : Bool :=
  (1678 ≤ t.y || (t.y = 1677 && (10 ≤ t.mo || (t.mo = 9 && 22 ≤ t.d)))) &&
  (t.y ≤ 2261 || (t.y = 2262 && (t.mo ≤ 3 || (t.mo = 4 && t.d ≤ 11))))

def validYmd (t : Ymd) : Bool :=
  1 ≤ t.mo && t.mo ≤ 12 && 1 ≤ t.d && t.d ≤ daysInMonth t.y t.mo && ymdInBounds t

def spanDigits (l : List Char) : List Char × List Char :=
  (l.takeWhile isDigitCh, l.dropWhile isDigitCh)

def expectChar (c : Char) : List Char → Option (List Char)
  | [] => none
  | x :: rest => if x = c then some rest else none

def midnightSuffix : List Char := [' ', '0', '0', ':', '0', '0', ':', '0', '0']

def parseDateChars (l : List Char) : Option Ymd :=
  if (spanDigits l).1.length = 4 then
    (expectChar '-' (spanDigits l).2).bind (fun r2 =>
      if 1 ≤ (spanDigits r2).1.length ∧ (spanDigits r2).1.length ≤ 2 then
        (expectChar '-' (spanDigits r2).2).bind (fun r4 =>
          if (1 ≤ (spanDigits r4).1.length ∧ (spanDigits r4).1.length ≤ 2)
              ∧ ((spanDigits r4).2 = [] ∨ (spanDigits r4).2 = midnightSuffix) then
            if validYmd ⟨digitsVal (spanDigits l).1, digitsVal (spanDigits r2).1,
                digitsVal (spanDigits r4).1⟩ = true then
              some ⟨digitsVal (spanDigits l).1, digitsVal (spanDigits r2).1,
                digitsVal (spanDigits r4).1⟩
            else none
          else none)
      else none)
  else none

def parseDate (s : String) : Option Ymd := parseDateChars s.data

def renderYmdChars (t : Ymd) : List Char :=
  padZeros 4 (natChars t.y) ++ '-' :: (padZeros 2 (natChars t.mo) ++ '-' :: padZeros 2 (natChars t.d))

def renderYmd (t : Ymd) : String := String.mk (renderYmdChars t)

theorem spanDigits_append (ds rest : List Char) (hds : ∀ c ∈ ds, isDigitCh c = true)
    (hrest : rest = [] ∨ ∃ c r, rest = c :: r ∧ isDigitCh c = false) :
    spanDigits (ds ++ rest) = (ds, rest) := by
  induction ds with
  | nil =>
    rcases hrest with h | ⟨c, r, hcr, hc⟩
    · subst h; rfl
    · subst hcr
      unfold spanDigits
      rw [List.nil_append, List.takeWhile_cons, List.dropWhile_cons, if_neg (by rw [hc]; exact
        Bool.false_ne_true), if_neg (by rw [hc]; exact Bool.false_ne_true)]
  | cons d tl ih =>
    have hd := hds d (List.mem_cons_self _ _)
    unfold spanDigits at ih ⊢
    rw [List.cons_append, List.takeWhile_cons, List.dropWhile_cons, if_pos hd, if_pos hd]
    have := ih (fun x hx => hds x (List.mem_cons_of_mem _ hx))
    rw [Prod.mk.injEq] at this
    rw [this.1, this.2]

theorem natChars_length_le {n k : Nat} (hk : 1 ≤ k) (h : n < 10 ^ k) :
    (natChars n).length ≤ k := by
  rw [natChars_eq]
  split
  · simpa
  · next hn =>
    rw [List.length_map, List.length_reverse]
    rw [Nat.digits_len 10 n (by norm_num) hn]
    have := (Nat.lt_pow_iff_log_lt (by norm_num) hn).mp h
    omega

theorem daysInMonth_le_31 (y mo : Nat) : daysInMonth y mo ≤ 31 := by
  unfold daysInMonth
  split
  · split <;> omega
  · split <;> omega

theorem validYmd_bounds {t : Ymd} (hv : validYmd t = true) :
    t.y ≤ 2262 ∧ 1 ≤ t.mo ∧ t.mo ≤ 12 ∧ 1 ≤ t.d ∧ t.d ≤ 31 := by
  unfold validYmd ymdInBounds at hv
  simp only [Bool.and_eq_true, Bool.or_eq_true, decide_eq_true_eq] at hv
  have := daysInMonth_le_31 t.y t.mo
  omega

theorem renderYmdChars_class (t : Ymd) :
    ∀ c ∈ renderYmdChars t, isDigitCh c = true ∨ c = '-' := by
  intro c hc
  unfold renderYmdChars at hc
  simp only [List.mem_append, List.mem_cons] at hc
  rcases hc with h | h | h
  · exact Or.inl (padZeros_digits _ _ (natChars_digits _) c h)
  · exact Or.inr h
  · rcases h with h | h | h
    · exact Or.inl (padZeros_digits _ _ (natChars_digits _) c h)
    · exact Or.inr h
    · exact Or.inl (padZeros_digits _ _ (natChars_digits _) c h)

theorem parseDate_renderYmd {t : Ymd} (hv : validYmd t = true) :
    parseDateChars (renderYmdChars t) = some t := by
  obtain ⟨hy, hm1, hm2, hd1, hd2⟩ := validYmd_bounds hv
  have hYlen : (padZeros 4 (natChars t.y)).length = 4 := by
    rw [padZeros_length]
    have := natChars_length_le (n := t.y) (k := 4) (by norm_num) (by omega)
    omega
  have hMlen : (padZeros 2 (natChars t.mo)).length = 2 := by
    rw [padZeros_length]
    have := natChars_length_le (n := t.mo) (k := 2) (by norm_num) (by omega)
    omega
  have hDlen : (padZeros 2 (natChars t.d)).length = 2 := by
    rw [padZeros_length]
    have := natChars_length_le (n := t.d) (k := 2) (by norm_num) (by omega)
    omega
  have hYdig := padZeros_digits 4 (natChars t.y) (natChars_digits _)
  have hMdig := padZeros_digits 2 (natChars t.mo) (natChars_digits _)
  have hDdig := padZeros_digits 2 (natChars t.d) (natChars_digits _)
  have hspan1 : spanDigits (renderYmdChars t)
      = (padZeros 4 (natChars t.y),
         '-' :: (padZeros 2 (natChars t.mo) ++ '-' :: padZeros 2 (natChars t.d))) :=
    spanDigits_append _ _ hYdig (Or.inr ⟨'-', _, rfl, by decide⟩)
  have hspan2 : spanDigits (padZeros 2 (natChars t.mo) ++ '-' :: padZeros 2 (natChars t.d))
      = (padZeros 2 (natChars t.mo), '-' :: padZeros 2 (natChars t.d)) :=
    spanDigits_append _ _ hMdig (Or.inr ⟨'-', _, rfl, by decide⟩)
  have hspan3 : spanDigits (padZeros 2 (natChars t.d)) = (padZeros 2 (natChars t.d), []) := by
    have := spanDigits_append (padZeros 2 (natChars t.d)) [] hDdig (Or.inl rfl)
    rwa [List.append_nil] at this
  have hvalY : digitsVal (padZeros 4 (natChars t.y)) = t.y := by
    rw [digitsVal_padZeros, digitsVal_natChars]
  have hvalM : digitsVal (padZeros 2 (natChars t.mo)) = t.mo := by
    rw [digitsVal_padZeros, digitsVal_natChars]
  have hvalD : digitsVal (padZeros 2 (natChars t.d)) = t.d := by
    rw [digitsVal_padZeros, digitsVal_natChars]
  unfold parseDateChars
  rw [hspan1]
  dsimp only
  rw [if_pos hYlen]
  rw [show expectChar '-' ('-' :: (padZeros 2 (natChars t.mo) ++ '-' :: padZeros 2 (natChars t.d)))
      = some (padZeros 2 (natChars t.mo) ++ '-' :: padZeros 2 (natChars t.d)) from rfl]
  rw [Option.some_bind]
  rw [hspan2]
  dsimp only
  rw [if_pos (by omega : 1 ≤ (padZeros 2 (natChars t.mo)).length ∧ (padZeros 2 (natChars t.mo)).length ≤ 2)]
  rw [show expectChar '-' ('-' :: padZeros 2 (natChars t.d)) = some (padZeros 2 (natChars t.d)) from rfl]
  rw [Option.some_bind]
  rw [hspan3]
  dsimp only
  rw [if_pos ⟨by omega, Or.inl rfl⟩]
  rw [hvalY, hvalM, hvalD]
  rw [if_pos (show validYmd ⟨t.y, t.mo, t.d⟩ = true from hv)]

/-! ### Timestamp rendering for non-midnight nanosecond values

Only needed to textify timestamps that were produced by applying
pd.to_datetime to a numeric column (epoch nanoseconds). -/

def nsPerDay : Int := 86400000000000

/-- Days-since-epoch to civil date (standard era-based civil-calendar
computation; all intermediate divisions have non-negative operands). -/
def civilFromDays (z0 : Int) : Int × Nat × Nat :=
  let z := z0 + 719468
  let era : Int := (if 0 ≤ z then z else z - 146096) / 146097
  let doe : Int := z - era * 146097
  let yoe : Int := (doe - doe / 1460 + doe / 36524 - doe / 146096) / 365
  let y : Int := yoe + era * 400
  let doy : Int := doe - (365 * yoe + yoe / 4 - yoe / 100)
  let mp : Int := (5 * doy + 2) / 153
  let d : Int := doy - (153 * mp + 2) / 5 + 1
  let m : Int := mp + (if mp < 10 then 3 else -9)
  (y + (if m ≤ 2 then 1 else 0), m.toNat, d.toNat)

def pad2 (n : Nat) : List Char := padZeros 2 (natChars n)

/-- str() of a pandas Timestamp holding `ns` nanoseconds since the epoch. -/
def renderNsChars (ns : Int) : List Char :=
  let day := Int.fdiv ns nsPerDay
  let rem := (Int.emod ns nsPerDay).toNat
  let c := civilFromDays day
  let dateCs := padZeros 4 (natChars c.1.toNat) ++ '-' :: (pad2 c.2.1 ++ '-' :: pad2 c.2.2)
  if rem = 0 then dateCs
  else
    let secs := rem / 1000000000
    let frac := rem % 1000000000
    let timeCs := pad2 (secs / 3600) ++ ':' :: (pad2 (secs % 3600 / 60) ++ ':' :: pad2 (secs % 60))
    let base := dateCs ++ ' ' :: timeCs
    if frac = 0 then base
    else if frac % 1000 = 0 then base ++ '.' :: padZeros 6 (natChars (frac / 1000))
    else base ++ '.' :: padZeros 9 (natChars frac)

/-! ### Cells: the model of pandas column values -/

inductive Cell where
  | vstr (s : String)
  | vnan
  | vnum (v : Dec)
  | vdate (t : Ymd)
  | vdatens (ns : Int)
  | vnat
deriving DecidableEq, Repr

/-- Model of `astype(str)` on one cell (NaN prints "nan", NaT prints "NaT"). -/
def textifyChars : Cell → List Char
  | .vstr s => s.data
  | .vnan => ['n', 'a', 'n']
  | .vnum d => renderDecChars d
  | .vdate t => renderYmdChars t
  | .vdatens ns => renderNsChars ns
  | .vnat => ['N', 'a', 'T']

/-- The character class kept by str.replace(regex `[^\d.-]` to "") of app.py line 90. -/
def keepNumCh (c : Char) : Bool := isDigitCh c || c = '.' || c = '-'

def regexStrip (l : List Char) : List Char := l.filter keepNumCh

/-- Numeric treatment of one cell (app.py lines 90-91):
astype(str), strip characters outside [0-9.-], to_numeric with coercion,
fillna(0). -/
def numTreatCell (c : Cell) : Cell :=
  match parseDecChars (regexStrip (textifyChars c)) with
  | some d => .vnum d
  | none => .vnum ⟨0, 0⟩

/-- Text normalization of one cell (app.py line 84):
astype(str).str.strip().str.title(). -/
def textTreatCell (c : Cell) : Cell :=
  .vstr (String.mk (titleChars false (pyStripChars (textifyChars c))))

/-- Date treatment of one cell (app.py line 96): pd.to_datetime with
coercion acts on the column values directly — strings are parsed, numbers
are taken as epoch nanoseconds, NaN becomes NaT, datetimes pass through. -/
def dateTreatCell : Cell → Cell
  | .vstr s =>
    match parseDateChars s.data with
    | some t => .vdate t
    | none => .vnat
  | .vnan => .vnat
  | .vnum d => .vdatens (Int.fdiv d.m (10 ^ d.e))
  | .vdate t => .vdate t
  | .vdatens ns => .vdatens ns
  | .vnat => .vnat

/-! ### Python substring test (the `in` operator on strings) -/

def startsWithChars : List Char → List Char → Bool
  | [], _ => true
  | _ :: _, [] => false
  | n :: ns, h :: hs => (n = h) && startsWithChars ns hs

def containsChars : List Char → List Char → Bool
  | [], needle => startsWithChars needle []
  | c :: hs, needle => startsWithChars needle (c :: hs) || containsChars hs needle

def containsStr (hay needle : String) : Bool := containsChars hay.data needle.data

theorem containsChars_cons (c : Char) (hs needle : List Char) :
    containsChars (c :: hs) needle
      = (startsWithChars needle (c :: hs) || containsChars hs needle) := rfl

theorem startsWithChars_append (n s : List Char) : startsWithChars n (n ++ s) = true := by
  induction n with
  | nil => rfl
  | cons c ns ih =>
    unfold startsWithChars
    simp only [List.cons_append]
    rw [ih]
    simp

theorem containsChars_append (pre n s : List Char) :
    containsChars (pre ++ (n ++ s)) n = true := by
  induction pre with
  | nil =>
    cases hns : n ++ s with
    | nil =>
      have hn : n = [] := by
        cases n with
        | nil => rfl
        | cons a b => simp at hns
      subst hn
      rfl
    | cons c hs =>
      rw [List.nil_append, containsChars_cons, ← hns, startsWithChars_append]
      simp
  | cons c pres ih =>
    rw [List.cons_append, containsChars_cons, ih]
    simp

/-! ### Tables: the model of pandas DataFrames (column-major) -/

structure Table where
  cols : List (String × List Cell)
deriving DecidableEq, Repr

def Table.nRows (t : Table) : Nat :=
  match t.cols with
  | [] => 0
  | c :: _ => c.2.length

/-- df.empty: some axis has length zero. -/
def Table.emptyDf (t : Table) : Bool := t.cols.isEmpty || decide (t.nRows = 0)

def emptyTable : Table := ⟨[]⟩

/-- Column titles the text pass looks for (app.py line 80). -/
def cols_to_normalize : List String := ["Sector", "Status", "Deal Stage", "Execution Status"]

/-- Numeric-keyword set (app.py line 88). -/
def numericKeywords : List String := ["amount", "price", "value", "billed", "collected"]

def numMatch (name : String) : Bool :=
  numericKeywords.any (fun x => containsStr (pyLower name) x)

def dateMatch (name : String) : Bool := containsStr (pyLower name) "date"

/-- The inner loop of the text pass (app.py lines 82-84): one column is
re-normalized once per matching target. -/
def textPhaseCol (name : String) (cells : List Cell) : List Cell :=
  cols_to_normalize.foldl
    (fun cs target => if containsStr name target then cs.map textTreatCell else cs) cells

/-- app.py lines 76-98: three successive passes over all columns
(text normalization, numeric coercion, date coercion), after an
early return of an empty frame. -/
def process_data (df : Table) : Table :=
  if df.emptyDf then df
  else
    let c1 := df.cols.map (fun nc => (nc.1, textPhaseCol nc.1 nc.2))
    let c2 := c1.map (fun nc =>
      if numMatch nc.1 then (nc.1, nc.2.map numTreatCell) else nc)
    let c3 := c2.map (fun nc =>
      if dateMatch nc.1 then (nc.1, nc.2.map dateTreatCell) else nc)
    ⟨c3⟩

/-! ### Board fetcher (app.py lines 35-73) -/

structure ColVal where
  title : String
  text : String
deriving DecidableEq, Repr

structure Item where
  name : String
  column_values : List ColVal
deriving DecidableEq, Repr

/-- Shape of the JSON body of a status-200 response, as the code consumes
it: an error envelope (non-empty errors list), the expected data shape, or
anything else (attribute access raises and the exception is caught). -/
inductive BodyShape where
  | withErrs (first : String) (rest : List String)
  | okItems (items : List Item)
  | malformed (excMsg : String)
deriving DecidableEq, Repr

/-- Oracle for the one network call requests.post makes: either the call
raised (transport failure) or an HTTP response arrived. -/
inductive FetchOutcome where
  | exn (msg : String)
  | resp (status : Nat) (body : BodyShape)
deriving DecidableEq, Repr

/-- Python dict assignment row[k] = v: replace in place, else append. -/
def updateA (r : List (String × String)) (k v : String) : List (String × String) :=
  match r with
  | [] => [(k, v)]
  | (k0, v0) :: rest => if k0 = k then (k, v) :: rest else (k0, v0) :: updateA rest k v

def lookupA (r : List (String × String)) (k : String) : Option String :=
  match r with
  | [] => none
  | (k0, v0) :: rest => if k0 = k then some v0 else lookupA rest k

/-- app.py lines 64-67: start the record at Item Name, then write each
column value whose title is truthy (non-empty). -/
def buildRecord (item : Item) : List (String × String) :=
  item.column_values.foldl
    (fun row cv => if cv.title ≠ "" then updateA row cv.title cv.text else row)
    [("Item Name", item.name)]

/-- Column union across records in first-seen order (pd.DataFrame(rows)). -/
def unionCols (records : List (List (String × String))) : List String :=
  records.foldl
    (fun acc r => r.foldl (fun a kv => if a.contains kv.1 then a else a ++ [kv.1]) acc) []

def dfOfRecords (records : List (List (String × String))) : Table :=
  ⟨(unionCols records).map (fun cName =>
    (cName, records.map (fun r =>
      match lookupA r cName with
      | some v => Cell.vstr v
      | none => Cell.vnan)))⟩

def natRepr (n : Nat) : String := String.mk (natChars n)

/-- app.py lines 35-73 (the GraphQL query text itself plays no further
role; the network effect is the FetchOutcome oracle). -/
def fetch_board_data (board_id api_key : String) (net : FetchOutcome) :
    Table × Option String :=
  match net with
  | .exn msg => (emptyTable, some msg)
  | .resp status body =>
    if status = 200 then
      match body with
      | .withErrs first _ => (emptyTable, some ("GraphQL Error: " ++ first))
      | .okItems items => (dfOfRecords (items.map buildRecord), none)
      | .malformed excMsg => (emptyTable, some excMsg)
    else (emptyTable, some ("HTTP Error: " ++ natRepr status))

/-! ### Insight composer (app.py lines 101-151) -/

/-- Oracle for the chat-completion call: the returned choices list, or the
message of a raised exception. -/
inductive ChatOutcome where
  | okResp (choices : List String)
  | raise (msg : String)
deriving DecidableEq, Repr

/-- to_csv cell rendering: NaN and NaT print as empty fields. -/
def csvCell : Cell → String
  | .vstr s => s
  | .vnan => ""
  | .vnum d => renderDec d
  | .vdate t => renderYmd t
  | .vdatens ns => String.mk (renderNsChars ns)
  | .vnat => ""

def Table.headN (t : Table) (n : Nat) : Table :=
  ⟨t.cols.map (fun nc => (nc.1, nc.2.take n))⟩

def sepJoin (sep : String) : List String → String
  | [] => ""
  | [x] => x
  | x :: y :: xs => x ++ sep ++ sepJoin sep (y :: xs)

def Table.rowStrs (t : Table) (i : Nat) : List String :=
  t.cols.map (fun nc => csvCell (nc.2.getD i Cell.vnan))

/-- df.to_csv(index=False), modelled without quoting of separator
characters inside fields. -/
def to_csv (t : Table) : String :=
  sepJoin "\n"
    (sepJoin "," (t.cols.map Prod.fst)
      :: (List.range t.nRows).map (fun i => sepJoin "," (t.rowStrs i))) ++ "\n"

def briefingInstruction : String :=
  "\nYou are the Chief of Staff preparing a **Leadership Update Memo**.\nFormat your response as follows:\n1. **Executive Summary**: 3 bullet points on overall health.\n2. **Revenue Pulse**: Billed vs. Collected (Cash Flow).\n3. **Pipeline Radar**: High probability deals closing soon.\n4. **Risk Watch**: Projects marked \"Stuck\", \"On Hold\", or with massive outstanding balances.\n"

def analystInstruction : String :=
  "\nYou are a Senior BI Analyst. Answer the user's specific question.\n- If data is \"Masked\" or 0, explicitly mention this as a data quality caveat.\n- Normalize sectors (e.g., treat \"Mining\" and \"mining\" as the same).\n- If the user asks for a chart, provide the data in a table format so I can plot it.\n"

/-- app.py lines 101-151: build the bounded context and system prompt,
make the one chat call, return its first choice verbatim; any exception
(transport, API, empty choices indexing) is caught and flattened to an
"AI Error: ..." string. -/
def ask_analyst (query : String) (df_wo df_deals : Table) (api_key : String)
    (is_briefing : Bool) (net : ChatOutcome) : String :=
  let wo_context := to_csv (df_wo.headN 100)
  let deal_context := to_csv (df_deals.headN 100)
  let role_instruction := if is_briefing then briefingInstruction else analystInstruction
  let system_prompt :=
    "\n" ++ role_instruction ++ "\n\nDATA CONTEXT:\n--- WORK ORDERS (Project Execution) ---\n"
      ++ wo_context ++ "\n\n--- DEALS (Sales Pipeline) ---\n" ++ deal_context
      ++ "\n\nRefuse to answer non-business questions.\n"
  match net with
  | .raise e => "AI Error: " ++ e
  | .okResp choices =>
    match choices with
    | content :: _ => content
    | [] => "AI Error: list index out of range"

/-! ### Session state and the sync button handler (app.py lines 156-173) -/

structure SessionState where
  wo_data : Option Table
  deal_data : Option Table
deriving DecidableEq, Repr

/-- Python truthiness of a string: non-empty. -/
def pyTruthyStr (s : String) : Bool := !s.isEmpty

/-- Python truthiness of an optional error string (None and "" are falsy). -/
def pyTruthyErr : Option String → Bool
  | none => false
  | some s => !s.isEmpty

/-- Python `a or b` on optional strings (value semantics). -/
def pyOrErr (a b : Option String) : Option String := if pyTruthyErr a then a else b

/-- app.py lines 160-173: the sync handler. Returns the new session state
and the message shown (an error, or none on the success path). -/
def load_btn_handler (monday_api_key wo_board_id deals_board_id : String)
    (netWo netDeal : FetchOutcome) (st : SessionState) : SessionState × Option String :=
  if ¬(pyTruthyStr monday_api_key && pyTruthyStr wo_board_id && pyTruthyStr deals_board_id) then
    (st, some "Please provide all Credentials.")
  else
    let wo := fetch_board_data wo_board_id monday_api_key netWo
    let deal := fetch_board_data deals_board_id monday_api_key netDeal
    if pyTruthyErr wo.2 || pyTruthyErr deal.2 then
      (st, some ("Connection Failed: " ++ (pyOrErr wo.2 deal.2).getD "None"))
    else
      ({ wo_data := some (process_data wo.1), deal_data := some (process_data deal.1) }, none)

/-! ### Treatment-level lemmas -/

theorem renderDecU_class (n e : Nat) :
    ∀ c ∈ renderDecU n e, isDigitCh c = true ∨ c = '.' := by
  intro c hc
  unfold renderDecU at hc
  by_cases he : e = 0
  · rw [if_pos he] at hc
    exact Or.inl (natChars_digits n c hc)
  · rw [if_neg he] at hc
    simp only [List.mem_append, List.mem_cons] at hc
    have hdig := padZeros_digits (e + 1) (natChars n) (natChars_digits n)
    rcases hc with h | h | h
    · exact Or.inl (hdig c (List.mem_of_mem_take h))
    · exact Or.inr h
    · exact Or.inl (hdig c (List.mem_of_mem_drop h))

theorem renderDecPlain_class (d : Dec) :
    ∀ c ∈ renderDecPlain d, keepNumCh c = true := by
  intro c hc
  have hofU : ∀ n e, c ∈ renderDecU n e → keepNumCh c = true := by
    intro n e hmem
    rcases renderDecU_class n e c hmem with h | h
    · unfold keepNumCh
      rw [h]
      simp
    · subst h
      decide
  unfold renderDecPlain at hc
  by_cases hm : d.m < 0
  · rw [if_pos hm] at hc
    rcases List.mem_cons.mp hc with h | h
    · subst h
      decide
    · exact hofU _ _ h
  · rw [if_neg hm] at hc
    exact hofU _ _ hc

theorem renderDecChars_class {d : Dec} (hp : decPlain d = true) :
    ∀ c ∈ renderDecChars d, keepNumCh c = true := by
  unfold renderDecChars
  rw [if_pos hp]
  exact renderDecPlain_class d

theorem keepNum_not_space_alpha {c : Char} (h : keepNumCh c = true) :
    isSpaceCh c = false ∧ isAlphaCh c = false := by
  unfold keepNumCh at h
  simp only [Bool.or_eq_true, decide_eq_true_eq] at h
  rcases h with (h | h) | h
  · exact ⟨digit_not_space h, digit_not_alpha h⟩
  · subst h
    exact ⟨by decide, by decide⟩
  · subst h
    exact ⟨by decide, by decide⟩

theorem ymd_not_space_alpha {t : Ymd} {c : Char} (hc : c ∈ renderYmdChars t) :
    isSpaceCh c = false ∧ isAlphaCh c = false := by
  rcases renderYmdChars_class t c hc with h | h
  · exact ⟨digit_not_space h, digit_not_alpha h⟩
  · subst h
    exact ⟨by decide, by decide⟩

theorem regexStrip_renderDecChars {d : Dec} (hp : decPlain d = true) :
    regexStrip (renderDecChars d) = renderDecChars d :=
  List.filter_eq_self.mpr (renderDecChars_class hp)

-- numeric treatment always yields a numeric cell
theorem numTreatCell_shape (c : Cell) : ∃ d, numTreatCell c = .vnum d := by
  unfold numTreatCell
  cases parseDecChars (regexStrip (textifyChars c)) with
  | none => exact ⟨⟨0, 0⟩, rfl⟩
  | some d => exact ⟨d, rfl⟩

/-- A cell whose numeric payload (if any) is printable without scientific
notation; non-numeric cells are unconstrained. -/
def cellPlain : Cell → Bool
  | .vnum d => decPlain d
  | _ => true

theorem numTreatCell_vnum {d : Dec} (hp : decPlain d = true) :
    numTreatCell (.vnum d) = .vnum d := by
  unfold numTreatCell
  show (match parseDecChars (regexStrip (renderDecChars d)) with
    | some d0 => Cell.vnum d0
    | none => Cell.vnum ⟨0, 0⟩) = Cell.vnum d
  rw [regexStrip_renderDecChars hp, parseDecChars_renderDecChars hp]

theorem numTreatCell_idem {c : Cell} (hp : cellPlain (numTreatCell c) = true) :
    numTreatCell (numTreatCell c) = numTreatCell c := by
  obtain ⟨d, hd⟩ := numTreatCell_shape c
  rw [hd] at hp ⊢
  exact numTreatCell_vnum hp

theorem dateTreatCell_vstr (s : String) :
    dateTreatCell (.vstr s)
      = match parseDateChars s.data with
        | some t => Cell.vdate t
        | none => Cell.vnat := rfl

theorem dateTreatCell_idem (c : Cell) : dateTreatCell (dateTreatCell c) = dateTreatCell c := by
  cases c with
  | vstr s =>
    rw [dateTreatCell_vstr s]
    cases parseDateChars s.data with
    | some t => rfl
    | none => rfl
  | vnan => rfl
  | vnum d => rfl
  | vdate t => rfl
  | vdatens ns => rfl
  | vnat => rfl

theorem textTreatCell_idem (c : Cell) : textTreatCell (textTreatCell c) = textTreatCell c := by
  have h : titleChars false (pyStripChars (titleChars false (pyStripChars (textifyChars c))))
      = titleChars false (pyStripChars (textifyChars c)) := by
    rw [pyStrip_titleChars_pyStrip, titleChars_titleChars]
  exact congrArg (fun l => Cell.vstr (String.mk l)) h

theorem textTreatCell_vnum {d : Dec} (hp : decPlain d = true) :
    textTreatCell (.vnum d) = .vstr (String.mk (renderDecChars d)) := by
  have h : titleChars false (pyStripChars (renderDecChars d)) = renderDecChars d := by
    rw [pyStripChars_of_no_space
        (fun c hc => (keepNum_not_space_alpha (renderDecChars_class hp c hc)).1),
      titleChars_of_no_alpha
        (fun c hc => (keepNum_not_space_alpha (renderDecChars_class hp c hc)).2)]
  exact congrArg (fun l => Cell.vstr (String.mk l)) h

theorem numTreatCell_renderStr {d : Dec} (hp : decPlain d = true) :
    numTreatCell (.vstr (String.mk (renderDecChars d))) = .vnum d := by
  unfold numTreatCell
  show (match parseDecChars (regexStrip (renderDecChars d)) with
    | some d0 => Cell.vnum d0
    | none => Cell.vnum ⟨0, 0⟩) = Cell.vnum d
  rw [regexStrip_renderDecChars hp, parseDecChars_renderDecChars hp]

theorem textTreatCell_vdate (t : Ymd) :
    textTreatCell (.vdate t) = .vstr (String.mk (renderYmdChars t)) := by
  have h : titleChars false (pyStripChars (renderYmdChars t)) = renderYmdChars t := by
    rw [pyStripChars_of_no_space (fun c hc => (ymd_not_space_alpha hc).1),
      titleChars_of_no_alpha (fun c hc => (ymd_not_space_alpha hc).2)]
  exact congrArg (fun l => Cell.vstr (String.mk l)) h

theorem parseDateChars_valid {l : List Char} {t : Ymd}
    (h : parseDateChars l = some t) : validYmd t = true := by
  unfold parseDateChars at h
  split at h
  · rw [Option.bind_eq_some] at h
    obtain ⟨r2, hr2, h⟩ := h
    split at h
    · rw [Option.bind_eq_some] at h
      obtain ⟨r4, hr4, h⟩ := h
      split at h
      · split at h
        · next hv =>
          rw [Option.some_inj] at h
          rw [← h]
          exact hv
        · exact absurd h (by simp)
      · exact absurd h (by simp)
    · exact absurd h (by simp)
  · exact absurd h (by simp)

theorem dateTreatCell_renderYmd {t : Ymd} (hv : validYmd t = true) :
    dateTreatCell (.vstr (String.mk (renderYmdChars t))) = .vdate t := by
  show (match parseDateChars (renderYmdChars t) with
    | some t0 => Cell.vdate t0
    | none => Cell.vnat) = Cell.vdate t
  rw [parseDate_renderYmd hv]

/-! ### Per-cell decomposition of process_data -/

/-- The effect of the text pass on one cell of a column called `name`. -/
def textCellFold (name : String) (c : Cell) : Cell :=
  cols_to_normalize.foldl
    (fun c0 target => if containsStr name target then textTreatCell c0 else c0) c

def textMatch (name : String) : Bool :=
  cols_to_normalize.any (fun target => containsStr name target)

/-- The combined effect of the three passes of process_data on one cell of
a column called `name`. -/
def cellOp (name : String) (c : Cell) : Cell :=
  let c1 := textCellFold name c
  let c2 := if numMatch name then numTreatCell c1 else c1
  if dateMatch name then dateTreatCell c2 else c2

theorem foldl_cond_idem {α : Type} (g : α → α) (hg : ∀ a, g (g a) = g a)
    (p : String → Bool) :
    ∀ (ts : List String) (a : α),
      ts.foldl (fun x t => if p t then g x else x) a = if ts.any p then g a else a := by
  intro ts
  induction ts with
  | nil => intro a; simp
  | cons t ts ih =>
    intro a
    rw [List.foldl_cons, List.any_cons]
    by_cases hp : p t = true
    · rw [if_pos hp, hp, ih (g a)]
      by_cases hts : ts.any p = true
      · rw [if_pos hts, hg]
        simp
      · rw [if_neg hts]
        simp
    · rw [if_neg hp, ih a]
      simp only [Bool.or_eq_true]
      by_cases hts : ts.any p = true
      · rw [if_pos hts, if_pos (Or.inr hts)]
      · rw [if_neg hts, if_neg (by tauto)]

theorem textCellFold_eq (name : String) (c : Cell) :
    textCellFold name c = if textMatch name then textTreatCell c else c := by
  unfold textCellFold textMatch
  exact foldl_cond_idem textTreatCell textTreatCell_idem
    (fun target => containsStr name target) cols_to_normalize c

theorem textCellFold_idem (name : String) (c : Cell) :
    textCellFold name (textCellFold name c) = textCellFold name c := by
  rw [textCellFold_eq, textCellFold_eq]
  by_cases h : textMatch name = true
  · rw [if_pos h, if_pos h, textTreatCell_idem]
  · rw [if_neg h, if_neg h]

theorem textPhaseCol_map (name : String) (cells : List Cell) :
    textPhaseCol name cells = cells.map (textCellFold name) := by
  unfold textPhaseCol textCellFold
  generalize cols_to_normalize = ts
  induction ts generalizing cells with
  | nil =>
    simp
  | cons t ts ih =>
    rw [List.foldl_cons]
    by_cases hp : containsStr name t = true
    · rw [if_pos hp, ih (cells.map textTreatCell), List.map_map]
      apply List.map_congr_left
      intro c hc
      show (fun c0 => List.foldl _ c0 ts) (textTreatCell c) = List.foldl _ (if containsStr name t = true then textTreatCell c else c) ts
      rw [if_pos hp]
    · rw [if_neg hp, ih cells]
      apply List.map_congr_left
      intro c hc
      show List.foldl _ c ts = List.foldl _ (if containsStr name t = true then textTreatCell c else c) ts
      rw [if_neg hp]

theorem process_data_eq {t : Table} (h : t.emptyDf = false) :
    process_data t = ⟨t.cols.map (fun nc => (nc.1, nc.2.map (cellOp nc.1)))⟩ := by
  unfold process_data
  rw [if_neg (by rw [h]; exact Bool.false_ne_true)]
  simp only [List.map_map]
  congr 1
  apply List.map_congr_left
  intro nc hnc
  show (fun nc0 => if dateMatch nc0.1 then (nc0.1, nc0.2.map dateTreatCell) else nc0)
      ((fun nc0 => if numMatch nc0.1 then (nc0.1, nc0.2.map numTreatCell) else nc0)
        (nc.1, textPhaseCol nc.1 nc.2))
    = (nc.1, nc.2.map (cellOp nc.1))
  rw [textPhaseCol_map]
  by_cases hn : numMatch nc.1 = true <;> by_cases hd : dateMatch nc.1 = true <;>
    simp [cellOp, hn, hd, List.map_map]

theorem cellOp_idem (name : String) (c : Cell)
    (hnd : ¬(numMatch name = true ∧ dateMatch name = true))
    (hplain : cellPlain (cellOp name c) = true) :
    cellOp name (cellOp name c) = cellOp name c := by
  unfold cellOp
  simp only [textCellFold_eq]
  by_cases hn : numMatch name = true <;> by_cases hd : dateMatch name = true
  · exact absurd ⟨hn, hd⟩ hnd
  · -- numeric (and possibly text), no date
    simp only [hn, if_true, hd, Bool.false_eq_true, if_false]
    by_cases ha : textMatch name = true
    · simp only [ha, if_true]
      obtain ⟨d, hdd⟩ := numTreatCell_shape (textTreatCell c)
      have hco : cellOp name c = numTreatCell (textTreatCell c) := by
        simp only [cellOp, textCellFold_eq, hn, if_true, hd, Bool.false_eq_true, if_false,
          ha]
      have hpd : decPlain d = true := by
        rw [hco, hdd] at hplain
        exact hplain
      rw [hdd, textTreatCell_vnum hpd, numTreatCell_renderStr hpd]
    · simp only [ha, Bool.false_eq_true, if_false]
      obtain ⟨d, hdd⟩ := numTreatCell_shape c
      have hco : cellOp name c = numTreatCell c := by
        simp only [cellOp, textCellFold_eq, hn, if_true, hd, Bool.false_eq_true, if_false,
          ha]
      apply numTreatCell_idem
      rw [hco] at hplain
      exact hplain
  · -- date (and possibly text), no numeric
    simp only [hn, Bool.false_eq_true, if_false, hd, if_true]
    by_cases ha : textMatch name = true
    · simp only [ha, if_true]
      by_cases htc : ∃ s, textTreatCell c = Cell.vstr s
      · obtain ⟨s, hs⟩ := htc
        rw [hs, dateTreatCell_vstr]
        cases hp : parseDateChars s.data with
        | some u =>
          rw [textTreatCell_vdate, dateTreatCell_renderYmd (parseDateChars_valid hp)]
        | none =>
          show dateTreatCell (textTreatCell Cell.vnat) = Cell.vnat
          decide
      · exact absurd ⟨_, rfl⟩ htc
    · simp only [ha, Bool.false_eq_true, if_false]
      exact dateTreatCell_idem c
  · -- no numeric, no date: only the text fold
    simp only [hn, hd, Bool.false_eq_true, if_false]
    by_cases ha : textMatch name = true
    · simp only [ha, if_true]
      exact textTreatCell_idem c
    · simp only [ha, Bool.false_eq_true, if_false]

theorem process_data_emptyDf (t : Table) : (process_data t).emptyDf = t.emptyDf := by
  by_cases h : t.emptyDf = true
  · unfold process_data
    rw [if_pos h]
  · have h0 : t.emptyDf = false := Bool.eq_false_iff.mpr h
    rw [process_data_eq h0]
    cases hc : t.cols with
    | nil => simp [Table.emptyDf, Table.nRows, hc]
    | cons nc rest => simp [Table.emptyDf, Table.nRows, hc]

/-! ### Claim theorems -/

/-- C2, counterexample: the claim "normalize(normalize(t)) == normalize(t)
for every input table" is false on the code, in two independent ways.
First, a column called "Value Date" matches both the numeric keyword set
("value") and the date keyword ("date"); the first pass turns "1,000"
into the number 1000 and then into the timestamp of 1000
epoch-nanoseconds; the second pass stringifies that timestamp, strips it
to a non-numeric remnant, coerces it to 0 and then to the epoch
timestamp — a different value. Second, even with an ordinary numeric
column: "100000000000000000000" normalizes to 1e20, whose float64 str()
is the scientific "1e+20"; the second pass strips that to "120" and
coerces it to 120; likewise "0.00001" becomes "1e-05", stripped to the
unparseable "1-05" and coerced to 0. -/
theorem spec_c2_counterexample :
    process_data (process_data ⟨[("Value Date", [Cell.vstr "1,000"])]⟩)
      ≠ process_data ⟨[("Value Date", [Cell.vstr "1,000"])]⟩
    ∧ process_data ⟨[("Value Date", [Cell.vstr "1,000"])]⟩
      = ⟨[("Value Date", [Cell.vdatens 1000])]⟩
    ∧ process_data (process_data ⟨[("Value Date", [Cell.vstr "1,000"])]⟩)
      = ⟨[("Value Date", [Cell.vdatens 0])]⟩
    ∧ process_data (process_data ⟨[("Amount", [Cell.vstr "100000000000000000000"])]⟩)
      ≠ process_data ⟨[("Amount", [Cell.vstr "100000000000000000000"])]⟩
    ∧ process_data ⟨[("Amount", [Cell.vstr "100000000000000000000"])]⟩
      = ⟨[("Amount", [Cell.vnum ⟨100000000000000000000, 0⟩])]⟩
    ∧ process_data (process_data ⟨[("Amount", [Cell.vstr "100000000000000000000"])]⟩)
      = ⟨[("Amount", [Cell.vnum ⟨120, 0⟩])]⟩
    ∧ process_data (process_data ⟨[("Amount", [Cell.vstr "0.00001"])]⟩)
      ≠ process_data ⟨[("Amount", [Cell.vstr "0.00001"])]⟩
    ∧ process_data ⟨[("Amount", [Cell.vstr "0.00001"])]⟩
      = ⟨[("Amount", [Cell.vnum ⟨1, 5⟩])]⟩
    ∧ process_data (process_data ⟨[("Amount", [Cell.vstr "0.00001"])]⟩)
      = ⟨[("Amount", [Cell.vnum ⟨0, 0⟩])]⟩ := by
  refine ⟨by decide, by decide, by decide, by decide, by decide, by decide, by decide,
    by decide, by decide⟩

/-- C2, amended: re-applying process_data is a no-op provided (i) no
column name matches both the numeric keyword set and the date keyword,
and (ii) every numeric value the first pass produces lies in the plain
printing range of float64 (zero, or magnitude in [1e-4, 1e16)) — for
overlap columns the two passes interfere, and outside the plain range
astype(str) emits scientific notation which the character strip mangles;
both failure modes are exhibited in the counterexample. -/
theorem spec_c2_idempotent (t : Table)
    (h : ∀ p ∈ t.cols, ¬(numMatch p.1 = true ∧ dateMatch p.1 = true))
    (hplain : ∀ p ∈ (process_data t).cols, ∀ c ∈ p.2, cellPlain c = true) :
    process_data (process_data t) = process_data t := by
  by_cases he : t.emptyDf = true
  · have h1 : process_data t = t := by
      unfold process_data
      rw [if_pos he]
    rw [h1, h1]
  · have h0 : t.emptyDf = false := Bool.eq_false_iff.mpr he
    have h2 : (process_data t).emptyDf = false := by
      rw [process_data_emptyDf]
      exact h0
    have hin := process_data_eq h0
    rw [process_data_eq h2, hin]
    congr 1
    show (t.cols.map (fun nc => (nc.1, nc.2.map (cellOp nc.1)))).map
        (fun nc => (nc.1, nc.2.map (cellOp nc.1)))
      = t.cols.map (fun nc => (nc.1, nc.2.map (cellOp nc.1)))
    rw [List.map_map]
    apply List.map_congr_left
    intro nc hnc
    show (nc.1, (nc.2.map (cellOp nc.1)).map (cellOp nc.1)) = (nc.1, nc.2.map (cellOp nc.1))
    rw [List.map_map]
    refine congrArg (fun cs => (nc.1, cs)) ?_
    apply List.map_congr_left
    intro c hc
    apply cellOp_idem nc.1 c (h nc hnc)
    exact hplain _ (by rw [hin]; exact List.mem_map_of_mem _ hnc) _
      (List.mem_map_of_mem _ hc)

/-- C2 witness: the amended idempotence theorem applied to a concrete
table whose column names do not straddle the two keyword sets and whose
normalized numbers stay in the plain printing range. -/
theorem spec_c2_witness :
    process_data (process_data ⟨[("Amount", [Cell.vstr "1,000"]),
        ("Start Date", [Cell.vstr "2024-01-15"]), ("Sector", [Cell.vstr " mining "])]⟩)
      = process_data ⟨[("Amount", [Cell.vstr "1,000"]),
        ("Start Date", [Cell.vstr "2024-01-15"]), ("Sector", [Cell.vstr " mining "])]⟩ :=
  spec_c2_idempotent _ (by decide) (by decide)

/-- Currency symbols for the C1 character class. -/
def currencyCh (c : Char) : Bool := c = '$' || c = '₹' || c = '€' || c = '£'

theorem c1_charclass {c : Char}
    (h : isDigitCh c = true ∨ c = ',' ∨ currencyCh c = true ∨ c = '-' ∨ c = '.') :
    keepNumCh c = (!(c = ',' || currencyCh c)) := by
  rcases h with h | h | h | h | h
  · have h1 : keepNumCh c = true := by
      unfold keepNumCh
      rw [h]
      simp
    rw [h1]
    have h2 : ¬(c = ',') := by
      intro hc
      subst hc
      revert h
      decide
    have h3 : currencyCh c = false := by
      unfold currencyCh
      simp only [Bool.or_eq_false_iff, decide_eq_false_iff_not]
      refine ⟨⟨⟨?_, ?_⟩, ?_⟩, ?_⟩ <;> intro hc <;> subst hc <;> revert h <;> decide
    simp [h2, h3]
  · subst h
    decide
  · unfold currencyCh at h
    simp only [Bool.or_eq_true, decide_eq_true_eq] at h
    rcases h with ((h | h) | h) | h <;> subst h <;> decide
  · subst h
    decide
  · subst h
    decide

/-- C1: numeric treatment textifies, strips every character outside
[0-9.-] and parses with decimal coercion; on strings made of digits,
comma separators, currency symbols, dots and a minus sign this equals
parsing the string with separators and currency removed; "$1,200.50"
yields 1200.50, while "Masked" and "" yield 0. The final conjunct is the
spec's end-to-end example: a fetched board of 2 items with an "Amount"
column holding "1,000" and "" normalizes to the numbers 1000 and 0. -/
theorem spec_c1_numeric_treatment :
    (∀ s : String,
      (∀ c ∈ s.data, isDigitCh c = true ∨ c = ',' ∨ currencyCh c = true ∨ c = '-' ∨ c = '.') →
      numTreatCell (.vstr s)
        = match parseDecChars (s.data.filter (fun c => !(c = ',' || currencyCh c))) with
          | some d => Cell.vnum d
          | none => Cell.vnum ⟨0, 0⟩)
    ∧ numTreatCell (.vstr "$1,200.50") = .vnum ⟨120050, 2⟩
    ∧ Dec.toRat ⟨120050, 2⟩ = (1200.50 : ℚ)
    ∧ numTreatCell (.vstr "Masked") = .vnum ⟨0, 0⟩
    ∧ numTreatCell (.vstr "") = .vnum ⟨0, 0⟩
    ∧ (fetch_board_data "b" "k" (.resp 200 (.okItems
        [⟨"A", [⟨"Amount", "1,000"⟩]⟩, ⟨"B", [⟨"Amount", ""⟩]⟩]))).1.nRows = 2
    ∧ process_data (fetch_board_data "b" "k" (.resp 200 (.okItems
        [⟨"A", [⟨"Amount", "1,000"⟩]⟩, ⟨"B", [⟨"Amount", ""⟩]⟩]))).1
      = ⟨[("Item Name", [Cell.vstr "A", Cell.vstr "B"]),
          ("Amount", [Cell.vnum ⟨1000, 0⟩, Cell.vnum ⟨0, 0⟩])]⟩ := by
  refine ⟨?_, by decide, by norm_num [Dec.toRat], by decide, by decide, by decide, by decide⟩
  intro s hs
  unfold numTreatCell
  have hfilter : regexStrip (textifyChars (Cell.vstr s))
      = s.data.filter (fun c => !(c = ',' || currencyCh c)) := by
    show s.data.filter keepNumCh = _
    exact List.filter_congr (fun c hc => c1_charclass (hs c hc))
  rw [hfilter]

/-- C1 witness: the character-class conjunct applied at "$1,200.50". -/
theorem spec_c1_witness :
    numTreatCell (.vstr "$1,200.50") = .vnum ⟨120050, 2⟩ := by
  have h := spec_c1_numeric_treatment.1 "$1,200.50" (by decide)
  exact h.trans (by decide)

/-- C3: date treatment parses a recognized calendar date (modelled as
ISO YYYY-MM-DD within the pandas Timestamp range) into its timestamp and
maps every unparseable string to the NaT null marker, which is distinct
from the numeric 0 sentinel; "2024-01-15" parses, "N/A" does not. -/
theorem spec_c3_date_treatment :
    (∀ (s : String) (t : Ymd), parseDate s = some t → dateTreatCell (.vstr s) = .vdate t)
    ∧ (∀ s : String, parseDate s = none → dateTreatCell (.vstr s) = .vnat)
    ∧ (∀ d : Dec, Cell.vnat ≠ Cell.vnum d)
    ∧ dateTreatCell (.vstr "2024-01-15") = .vdate ⟨2024, 1, 15⟩
    ∧ dateTreatCell (.vstr "N/A") = .vnat := by
  refine ⟨?_, ?_, ?_, by decide, by decide⟩
  · intro s t h
    rw [dateTreatCell_vstr]
    unfold parseDate at h
    rw [h]
  · intro s h
    rw [dateTreatCell_vstr]
    unfold parseDate at h
    rw [h]
  · intro d h
    exact Cell.noConfusion h

/-- C3 witness: the two parsing conjuncts applied at "2024-01-15" and "N/A". -/
theorem spec_c3_witness :
    dateTreatCell (.vstr "2024-01-15") = .vdate ⟨2024, 1, 15⟩
    ∧ dateTreatCell (.vstr "N/A") = .vnat :=
  ⟨spec_c3_date_treatment.1 "2024-01-15" ⟨2024, 1, 15⟩ (by decide),
   spec_c3_date_treatment.2.1 "N/A" (by decide)⟩

/-- C9: the normalizer is total by construction (it is a Lean function
into Table); the empty frame is returned unchanged, every failed numeric
conversion degrades to the 0 sentinel (numeric treatment always produces
a number), and every failed date conversion degrades to the NaT null
sentinel. -/
theorem spec_c9_total_normalizer :
    (∀ t : Table, t.emptyDf = true → process_data t = t)
    ∧ (∀ c : Cell, parseDecChars (regexStrip (textifyChars c)) = none →
        numTreatCell c = .vnum ⟨0, 0⟩)
    ∧ (∀ c : Cell, ∃ d, numTreatCell c = .vnum d)
    ∧ (∀ s : String, parseDateChars s.data = none → dateTreatCell (.vstr s) = .vnat) := by
  refine ⟨?_, ?_, numTreatCell_shape, ?_⟩
  · intro t ht
    unfold process_data
    rw [if_pos ht]
  · intro c h
    unfold numTreatCell
    rw [h]
  · intro s h
    rw [dateTreatCell_vstr, h]

/-- C9 witness: the conjuncts applied at the empty table, the cell
"Masked" (which fails numeric parsing) and the string "N/A" (which fails
date parsing). -/
theorem spec_c9_witness :
    process_data emptyTable = emptyTable
    ∧ numTreatCell (.vstr "Masked") = .vnum ⟨0, 0⟩
    ∧ dateTreatCell (.vstr "N/A") = .vnat :=
  ⟨spec_c9_total_normalizer.1 emptyTable (by decide),
   spec_c9_total_normalizer.2.1 (.vstr "Masked") (by decide),
   spec_c9_total_normalizer.2.2.2 "N/A" (by decide)⟩

/-- C10: a successful fetch of a board with zero items returns the empty
table with a null error indicator, while failures also return the empty
table but with a non-null error — so success is distinguishable from
failure only through the error component of the pair. -/
theorem spec_c10_empty_success (board_id api_key : String) :
    fetch_board_data board_id api_key (.resp 200 (.okItems [])) = (emptyTable, none)
    ∧ (fetch_board_data board_id api_key (.exn "connection timed out")).1 = emptyTable
    ∧ (fetch_board_data board_id api_key (.exn "connection timed out")).2 ≠ none := by
  refine ⟨rfl, rfl, ?_⟩
  intro h
  exact Option.noConfusion h

/-- C10 witness: the distinguishability conjuncts at concrete credentials. -/
theorem spec_c10_witness :
    fetch_board_data "b" "k" (.resp 200 (.okItems [])) = (emptyTable, none)
    ∧ (fetch_board_data "b" "k" (.exn "connection timed out")).2 ≠ none :=
  ⟨(spec_c10_empty_success "b" "k").1, (spec_c10_empty_success "b" "k").2.2⟩

theorem fetch_board_data_resp (board_id api_key : String) (status : Nat) (body : BodyShape) :
    fetch_board_data board_id api_key (.resp status body)
      = if status = 200 then
          (match body with
           | .withErrs first rest => (emptyTable, some ("GraphQL Error: " ++ first))
           | .okItems items => (dfOfRecords (items.map buildRecord), none)
           | .malformed excMsg => (emptyTable, some excMsg))
        else (emptyTable, some ("HTTP Error: " ++ natRepr status)) := rfl

theorem containsStr_append_right (x y : String) : containsStr (x ++ y) y = true := by
  unfold containsStr
  rw [String.data_append]
  have h := containsChars_append x.data y.data []
  rwa [List.append_nil] at h

/-- C4: every failure of fetch_board_data — a transport exception, a
non-200 status, a GraphQL error envelope in a 200 body, or an unexpected
body shape — yields the empty table together with a non-null message, and
in the envelope case the message contains the first error's text. -/
theorem spec_c4_fetch_failures (board_id api_key : String) :
    (∀ msg, fetch_board_data board_id api_key (.exn msg) = (emptyTable, some msg))
    ∧ (∀ status body, status ≠ 200 →
        fetch_board_data board_id api_key (.resp status body)
          = (emptyTable, some ("HTTP Error: " ++ natRepr status)))
    ∧ (∀ first rest,
        fetch_board_data board_id api_key (.resp 200 (.withErrs first rest))
          = (emptyTable, some ("GraphQL Error: " ++ first))
        ∧ containsStr ("GraphQL Error: " ++ first) first = true)
    ∧ (∀ excMsg,
        fetch_board_data board_id api_key (.resp 200 (.malformed excMsg))
          = (emptyTable, some excMsg)) := by
  refine ⟨fun msg => rfl, ?_, ?_, fun excMsg => rfl⟩
  · intro status body h
    rw [fetch_board_data_resp, if_neg h]
  · intro first rest
    exact ⟨rfl, containsStr_append_right "GraphQL Error: " first⟩

/-- C4 witness: the three failure conjuncts at concrete inputs. -/
theorem spec_c4_witness :
    fetch_board_data "b" "k" (.resp 500 (.okItems [])) = (emptyTable, some "HTTP Error: 500")
    ∧ fetch_board_data "b" "k" (.resp 200 (.withErrs "bad board id" []))
        = (emptyTable, some "GraphQL Error: bad board id")
    ∧ fetch_board_data "b" "k" (.exn "timeout") = (emptyTable, some "timeout") := by
  refine ⟨?_, ?_, ((spec_c4_fetch_failures "b" "k").1 "timeout")⟩
  · exact ((spec_c4_fetch_failures "b" "k").2.1 500 (.okItems []) (by decide)).trans (by decide)
  · exact (((spec_c4_fetch_failures "b" "k").2.2.1 "bad board id" []).1).trans (by decide)

theorem ai_error_ne_empty (e : String) : ("AI Error: " ++ e) ≠ "" := by
  intro h
  have h2 := congrArg (fun s => s.data.length) h
  simp only [String.data_append, List.length_append] at h2
  have h3 : ("AI Error: " : String).data.length = 10 := rfl
  have h4 : ("" : String).data.length = 0 := rfl
  rw [h3, h4] at h2
  omega

/-- C5: ask_analyst is a total function that never propagates a fault: on
a successful call it returns the first choice's content unmodified; if the
call raised, it returns the non-empty string "AI Error: " followed by the
exception text; an empty choices list (an IndexError inside the try block)
also flattens to an "AI Error: ..." string. -/
theorem spec_c5_compose (query : String) (df_wo df_deals : Table) (api_key : String)
    (is_briefing : Bool) :
    (∀ content rest,
      ask_analyst query df_wo df_deals api_key is_briefing (.okResp (content :: rest)) = content)
    ∧ (∀ e, ask_analyst query df_wo df_deals api_key is_briefing (.raise e) = "AI Error: " ++ e
        ∧ ask_analyst query df_wo df_deals api_key is_briefing (.raise e) ≠ "")
    ∧ ask_analyst query df_wo df_deals api_key is_briefing (.okResp [])
        = "AI Error: list index out of range" := by
  refine ⟨fun content rest => rfl, ?_, rfl⟩
  intro e
  exact ⟨rfl, ai_error_ne_empty e⟩

/-- C5 witness: the success and failure conjuncts at concrete inputs. -/
theorem spec_c5_witness :
    ask_analyst "q" emptyTable emptyTable "k" true (.okResp ["the memo"]) = "the memo"
    ∧ ask_analyst "q" emptyTable emptyTable "k" true (.raise "rate limited")
        = "AI Error: rate limited" :=
  ⟨(spec_c5_compose "q" emptyTable emptyTable "k" true).1 "the memo" [],
   ((spec_c5_compose "q" emptyTable emptyTable "k" true).2.1 "rate limited").1⟩

/-- C6, counterexample: the claim "a column matching both keyword sets
receives only the numeric treatment" is false. "Amount Date" matches both
sets; the code applies the numeric pass and then additionally the date
pass to its output ("1,000" ends as the 1000-nanosecond timestamp, not as
the number 1000). -/
theorem spec_c6_counterexample :
    numMatch "Amount Date" = true ∧ dateMatch "Amount Date" = true
    ∧ process_data ⟨[("Amount Date", [Cell.vstr "1,000"])]⟩
        = ⟨[("Amount Date", [Cell.vdatens 1000])]⟩
    ∧ process_data ⟨[("Amount Date", [Cell.vstr "1,000"])]⟩
        ≠ ⟨[("Amount Date", [Cell.vnum ⟨1000, 0⟩])]⟩ := by
  refine ⟨by decide, by decide, by decide, by decide⟩

/-- C6, amended: the numeric check precedes the date check, but the
passes are not exclusive: process_data applies, per column, the text
fold, then (when the name matches the numeric keywords) the numeric
treatment, then additionally (when the name contains "date") the date
treatment on the already-numeric result. -/
theorem spec_c6_amended :
    (∀ t : Table, t.emptyDf = false →
      process_data t = ⟨t.cols.map (fun nc => (nc.1, nc.2.map (cellOp nc.1)))⟩)
    ∧ (∀ (name : String) (c : Cell), numMatch name = true → dateMatch name = true →
        cellOp name c = dateTreatCell (numTreatCell (textCellFold name c))) := by
  refine ⟨fun t ht => process_data_eq ht, ?_⟩
  intro name c hn hd
  simp only [cellOp, hn, hd, if_true]

/-- C6 witness: both amended conjuncts at concrete inputs. -/
theorem spec_c6_witness :
    process_data ⟨[("Amount", [Cell.vstr "5"])]⟩
      = ⟨[("Amount", [Cell.vstr "5"])].map (fun nc => (nc.1, nc.2.map (cellOp nc.1)))⟩
    ∧ cellOp "Amount Date" (Cell.vstr "5")
      = dateTreatCell (numTreatCell (textCellFold "Amount Date" (Cell.vstr "5"))) :=
  ⟨spec_c6_amended.1 ⟨[("Amount", [Cell.vstr "5"])]⟩ (by decide),
   spec_c6_amended.2 "Amount Date" (Cell.vstr "5") (by decide) (by decide)⟩

/-! ### Record-construction lemmas for the fetcher -/

theorem lookupA_updateA (r : List (String × String)) (k v k2 : String) :
    lookupA (updateA r k v) k2 = if k2 = k then some v else lookupA r k2 := by
  induction r with
  | nil =>
    show lookupA [(k, v)] k2 = if k2 = k then some v else lookupA [] k2
    unfold lookupA
    by_cases h : k = k2
    · rw [if_pos h, if_pos h.symm]
    · rw [if_neg h, if_neg (fun hh => h hh.symm)]
      rfl
  | cons p r ih =>
    obtain ⟨k0, v0⟩ := p
    unfold updateA
    by_cases h0 : k0 = k
    · rw [if_pos h0]
      unfold lookupA
      by_cases h2 : k = k2
      · rw [if_pos h2, if_pos h2.symm]
      · rw [if_neg h2, if_neg (fun hh => h2 hh.symm), if_neg (h0 ▸ h2)]
    · rw [if_neg h0]
      unfold lookupA
      by_cases h2 : k0 = k2
      · rw [if_pos h2, if_neg (fun hh => h0 (h2.trans hh)), if_pos h2]
      · rw [if_neg h2, if_neg h2, ih]

/-- Last written text for a given title (later occurrences win). -/
def lastText (l : List ColVal) (k : String) : Option String :=
  l.foldl (fun acc cv => if cv.title = k then some cv.text else acc) none

theorem lastText_fold (l : List ColVal) (k : String) :
    ∀ acc, l.foldl (fun a cv => if cv.title = k then some cv.text else a) acc
      = (lastText l k).or acc := by
  induction l with
  | nil => intro acc; rfl
  | cons cv l ih =>
    intro acc
    rw [List.foldl_cons, ih]
    have h2 : lastText (cv :: l) k
        = (lastText l k).or (if cv.title = k then some cv.text else none) := by
      unfold lastText
      rw [List.foldl_cons, ih]
      rfl
    rw [h2, Option.or_assoc]
    congr 1
    by_cases ht : cv.title = k
    · rw [if_pos ht, if_pos ht]
      rfl
    · rw [if_neg ht, if_neg ht]
      rfl

theorem lastText_none {l : List ColVal} {k : String}
    (h : ∀ cv ∈ l, cv.title ≠ k) : lastText l k = none := by
  induction l with
  | nil => rfl
  | cons cv l ih =>
    unfold lastText
    rw [List.foldl_cons, lastText_fold]
    rw [if_neg (h cv (List.mem_cons_self _ _))]
    rw [show lastText l k = none from ih (fun x hx => h x (List.mem_cons_of_mem _ hx))]
    rfl

theorem lookup_buildFold (l : List ColVal) (k : String) (hk : k ≠ "") :
    ∀ init,
      lookupA (l.foldl (fun row cv => if cv.title ≠ "" then updateA row cv.title cv.text
        else row) init) k
      = (lastText l k).or (lookupA init k) := by
  induction l with
  | nil => intro init; rfl
  | cons cv l ih =>
    intro init
    rw [List.foldl_cons, ih]
    have hstep : lookupA (if cv.title ≠ "" then updateA init cv.title cv.text else init) k
        = (if cv.title = k then some cv.text else none).or (lookupA init k) := by
      by_cases ht : cv.title ≠ ""
      · rw [if_pos ht, lookupA_updateA]
        by_cases h2 : k = cv.title
        · rw [if_pos h2, if_pos h2.symm]
          rfl
        · rw [if_neg h2, if_neg (fun hh => h2 hh.symm)]
          rfl
      · rw [if_neg ht]
        push_neg at ht
        rw [if_neg (fun hh : cv.title = k => hk (hh.symm.trans ht))]
        rfl
    rw [hstep]
    have h2 : lastText (cv :: l) k
        = (lastText l k).or (if cv.title = k then some cv.text else none) := by
      unfold lastText
      rw [List.foldl_cons, lastText_fold]
      rfl
    rw [h2, Option.or_assoc]

theorem lookup_buildFold_empty_key (l : List ColVal) :
    ∀ init, lookupA init "" = none →
      lookupA (l.foldl (fun row cv => if cv.title ≠ "" then updateA row cv.title cv.text
        else row) init) "" = none := by
  induction l with
  | nil => intro init h; exact h
  | cons cv l ih =>
    intro init h
    rw [List.foldl_cons]
    apply ih
    by_cases ht : cv.title ≠ ""
    · rw [if_pos ht, lookupA_updateA, if_neg (fun hh => ht hh.symm)]
      exact h
    · rw [if_neg ht]
      exact h

/-- C7, counterexample: the claim that the reserved key is distinct from
every column title and always holds the item's name is false — a column
literally titled "Item Name" overwrites the reserved entry. -/
theorem spec_c7_counterexample :
    buildRecord ⟨"A", [⟨"Item Name", "B"⟩]⟩ = [("Item Name", "B")]
    ∧ lookupA (buildRecord ⟨"A", [⟨"Item Name", "B"⟩]⟩) "Item Name" ≠ some "A" := by
  refine ⟨by decide, by decide⟩

/-- C7, amended: provided no column value is titled "Item Name", the
record maps "Item Name" to the item's name; every non-empty title maps to
the text of its last occurrence (later occurrences overwrite earlier
ones); empty titles are dropped. -/
theorem spec_c7_row_construction (item : Item)
    (hres : ∀ cv ∈ item.column_values, cv.title ≠ "Item Name") :
    lookupA (buildRecord item) "Item Name" = some item.name
    ∧ (∀ k, k ≠ "" → k ≠ "Item Name" →
        lookupA (buildRecord item) k = lastText item.column_values k)
    ∧ lookupA (buildRecord item) "" = none := by
  refine ⟨?_, ?_, ?_⟩
  · unfold buildRecord
    rw [lookup_buildFold item.column_values "Item Name" (by decide)]
    rw [lastText_none hres]
    rfl
  · intro k hk hkn
    unfold buildRecord
    rw [lookup_buildFold item.column_values k hk]
    have h2 : lookupA [("Item Name", item.name)] k = none := by
      unfold lookupA
      rw [if_neg (fun hh => hkn hh.symm)]
      rfl
    rw [h2]
    cases lastText item.column_values k with
    | none => rfl
    | some v => rfl
  · unfold buildRecord
    apply lookup_buildFold_empty_key
    rfl

/-- C7 witness: the amended record-construction theorem at a concrete
item with a duplicate title and an empty title. -/
theorem spec_c7_witness :
    lookupA (buildRecord ⟨"A", [⟨"X", "1"⟩, ⟨"", "z"⟩, ⟨"X", "2"⟩]⟩) "Item Name" = some "A"
    ∧ lookupA (buildRecord ⟨"A", [⟨"X", "1"⟩, ⟨"", "z"⟩, ⟨"X", "2"⟩]⟩) "X" = some "2"
    ∧ lookupA (buildRecord ⟨"A", [⟨"X", "1"⟩, ⟨"", "z"⟩, ⟨"X", "2"⟩]⟩) "" = none := by
  have h := spec_c7_row_construction ⟨"A", [⟨"X", "1"⟩, ⟨"", "z"⟩, ⟨"X", "2"⟩]⟩ (by decide)
  refine ⟨h.1, ?_, h.2.2⟩
  exact (h.2.1 "X" (by decide) (by decide)).trans (by decide)

/-- C8, counterexample: the claim "when either board fetch reports an
error, both session tables are left unchanged" is false under Python
truthiness — a fetch failure whose exception stringifies to "" yields the
error value some "", which `if err1 or err2` treats as falsy, so the
handler replaces both tables (with freshly processed empty frames)
instead of keeping the previous data. -/
theorem spec_c8_counterexample :
    (fetch_board_data "w" "k" (.exn "")).2 = some ""
    ∧ (load_btn_handler "k" "w" "d" (.exn "") (.resp 200 (.okItems []))
        ⟨some ⟨[("A", [Cell.vstr "x"])]⟩, some ⟨[("A", [Cell.vstr "x"])]⟩⟩).1.wo_data
      ≠ some ⟨[("A", [Cell.vstr "x"])]⟩
    ∧ (load_btn_handler "k" "w" "d" (.exn "") (.resp 200 (.okItems []))
        ⟨some ⟨[("A", [Cell.vstr "x"])]⟩, some ⟨[("A", [Cell.vstr "x"])]⟩⟩).1
      = ⟨some emptyTable, some emptyTable⟩ := by
  refine ⟨by decide, by decide, by decide⟩

/-- C8, amended: a sync is atomic — it either leaves both session tables
unchanged or replaces both with the freshly normalized fetch results, and
a reader never observes a mixed state; both tables are kept exactly when
either fetch reports a truthy (non-empty) error message, and both are
replaced when credentials are present and neither error is truthy. -/
theorem spec_c8_sync_atomic (monday_api_key wo_board_id deals_board_id : String)
    (netWo netDeal : FetchOutcome) (st : SessionState) :
    ((load_btn_handler monday_api_key wo_board_id deals_board_id netWo netDeal st).1 = st
      ∨ (load_btn_handler monday_api_key wo_board_id deals_board_id netWo netDeal st).1
          = ⟨some (process_data (fetch_board_data wo_board_id monday_api_key netWo).1),
             some (process_data (fetch_board_data deals_board_id monday_api_key netDeal).1)⟩)
    ∧ ((pyTruthyErr (fetch_board_data wo_board_id monday_api_key netWo).2 = true
        ∨ pyTruthyErr (fetch_board_data deals_board_id monday_api_key netDeal).2 = true)
        → (load_btn_handler monday_api_key wo_board_id deals_board_id netWo netDeal st).1 = st)
    ∧ ((pyTruthyStr monday_api_key && pyTruthyStr wo_board_id
          && pyTruthyStr deals_board_id) = true
        → pyTruthyErr (fetch_board_data wo_board_id monday_api_key netWo).2 = false
        → pyTruthyErr (fetch_board_data deals_board_id monday_api_key netDeal).2 = false
        → (load_btn_handler monday_api_key wo_board_id deals_board_id netWo netDeal st).1
            = ⟨some (process_data (fetch_board_data wo_board_id monday_api_key netWo).1),
               some (process_data (fetch_board_data deals_board_id monday_api_key netDeal).1)⟩) := by
  simp only [load_btn_handler]
  by_cases hc : (pyTruthyStr monday_api_key && pyTruthyStr wo_board_id
      && pyTruthyStr deals_board_id) = true
  · rw [if_neg (by rw [hc]; simp)]
    by_cases he : (pyTruthyErr (fetch_board_data wo_board_id monday_api_key netWo).2
        || pyTruthyErr (fetch_board_data deals_board_id monday_api_key netDeal).2) = true
    · rw [if_pos he]
      refine ⟨Or.inl rfl, fun _ => rfl, ?_⟩
      intro _ hw hd
      rw [hw, hd] at he
      simp at he
    · rw [if_neg he]
      refine ⟨Or.inr rfl, ?_, fun _ _ _ => rfl⟩
      intro h
      exfalso
      apply he
      rcases h with h | h <;> rw [h] <;> simp
  · rw [if_pos hc]
    refine ⟨Or.inl rfl, fun _ => rfl, ?_⟩
    intro h _ _
    exact absurd h hc

/-- C8 witness: the amended theorem at a concrete failing sync (truthy
error keeps the previous state). -/
theorem spec_c8_witness :
    (load_btn_handler "k" "w" "d" (.exn "boom") (.resp 200 (.okItems []))
        ⟨none, none⟩).1 = ⟨none, none⟩ :=
  (spec_c8_sync_atomic "k" "w" "d" (.exn "boom") (.resp 200 (.okItems [])) ⟨none, none⟩).2.1
    (Or.inl (by decide))

end Skylark

